import Mathlib

/-!
# Well-test fitting engine: embedding and verified properties

A shallow embedding of the model-fitting core of the well-test analysis tool
(`wt_fittingwidget.h`, `wt_plottingwidget.cpp`, `fittingpage.cpp`) and of the
state handling around it: the analysis tabs (`fittingpage.cpp`), the data sheet
(`datasinglesheet.cpp`), the stored curves and their views
(`wt_plottingwidget.cpp`) and the event lines of the chart (`chartwidget.cpp`).

Conventions of the embedding:

* `double` values are embedded as exact rationals `ℚ` (comparisons and
  arithmetic are exact; rounding, infinities and NaN are outside the embedding);
  a `double` literal that is compared with data stands for the binary fraction
  it denotes (`rateThreshold`);
* `QVector<double>` is `List ℚ`; a `QString` whose characters are inspected is
  `List Char`, a parameter name used only as a key is `String`;
* Qt library calls whose result depends on text parsing (`QString::toDouble`)
  are parameters of the definitions that use them;
* a `QMap<QString, V>` is an association list with unique keys (`AList`); objects
  reached through pointers (tabs, axis rects, plot items) are values, an item
  carrying a number as its identity;
* `QCPAxis::setRange` is embedded as the assignment of the range.
-/

namespace WellTest

/-! # Part I: the embedding

All definitions come first; the theorems about them follow in Part II. -/

/-! ## Data model of the fitting engine -/

/-- One fit parameter (`FitParameter` in `wt_fittingwidget.h`): a named value with
its bounds and the flag saying whether the optimizer may change it. -/
structure FitParameter where
  name : String
  value : ℚ
  lowerBound : ℚ
  upperBound : ℚ
  isFitted : Bool
deriving DecidableEq

/-- The parameter map `QMap<QString, double>` handed to the model evaluator. -/
abbrev ParamMap := List (String × ℚ)

/-- The parameter map of a parameter list: every parameter, fitted or not. -/
def toParamMap (params : List FitParameter) : ParamMap :=
  params.map fun p => (p.name, p.value)

/-- The model manager, seen through the one operation the optimizer uses: for a
model type, a parameter map and a time vector it yields the pressure and the
derivative curve. The manager is not part of the fitting widget; it is a
parameter of everything below. -/
structure ModelManager where
  evaluate : Nat → ParamMap → List ℚ → List ℚ × List ℚ

/-- The observed data cached by the widget: `m_obsTime`, `m_obsDeltaP`,
`m_obsDerivative`. -/
structure ObservedData where
  obsTime : List ℚ
  obsDeltaP : List ℚ
  obsDerivative : List ℚ

/-- Why a fit run stopped (`stoppedReason` of the fit result). -/
inductive StopReason where
  | Converged
  | MaxIterations
  | Cancelled
  | SingularJacobian
deriving DecidableEq

/-- The result of a completed or aborted fit run. -/
structure FitResult where
  parameters : List FitParameter
  sumSquaredError : ℚ
  iterationCount : Nat
  converged : Bool
  stoppedReason : StopReason
deriving DecidableEq

/-- The payload of `sigIterationUpdated`: the error, the current parameter map
and the freshly evaluated model curves. -/
structure IterationEvent where
  error : ℚ
  currentParams : ParamMap
  t : List ℚ
  p : List ℚ
  d : List ℚ
deriving DecidableEq

/-- The tunable constants of the optimizer: the iteration cap, the cap on
damping retries inside one iteration, the two convergence tolerances, the
initial damping factor and the relative finite-difference step. -/
structure LMConfig where
  maxIterations : Nat
  retryCap : Nat
  tolSSE : ℚ
  tolStep : ℚ
  lambda0 : ℚ
  relStep : ℚ

/-- Everything a fit run reads and never writes: the model manager, the observed
data, the constants, and the linear solver (`solveLinearSystem`, which answers
`none` on a singular system). -/
structure FitContext where
  mgr : ModelManager
  obs : ObservedData
  cfg : LMConfig
  solveLinearSystem : List (List ℚ) → List ℚ → Option (List ℚ)

/-! ## Residuals, Jacobian and normal equations -/

/-- Modelled from the spec: `FittingWidget::calculateResiduals`, declared in
`wt_fittingwidget.h` and implemented outside the available sources. Per observed
sample the pressure residual `model - observed`, followed by the derivative
residuals scaled by `weight`. -/
def calculateResiduals (mgr : ModelManager) (obs : ObservedData)
    (params : ParamMap) (modelType : Nat) (weight : ℚ) : List ℚ :=
  let curves := mgr.evaluate modelType params obs.obsTime
  List.zipWith (fun m o => m - o) curves.1 obs.obsDeltaP ++
    List.zipWith (fun m o => weight * (m - o)) curves.2 obs.obsDerivative

/-- Modelled from the spec: `FittingWidget::calculateSumSquaredError`, the sum of
the squares of the residuals. -/
def calculateSumSquaredError (residuals : List ℚ) : ℚ :=
  (residuals.map fun r => r * r).sum

/-- The sum of squared residuals of a parameter list. -/
def sseOf (ctx : FitContext) (modelType : Nat) (weight : ℚ)
    (params : List FitParameter) : ℚ :=
  calculateSumSquaredError
    (calculateResiduals ctx.mgr ctx.obs (toParamMap params) modelType weight)

/-- The parameter list with the value of its `idx`-th entry replaced. -/
def setValueAt (params : List FitParameter) (idx : Nat) (v : ℚ) : List FitParameter :=
  params.enum.map fun ip => if ip.1 = idx then { ip.2 with value := v } else ip.2

/-- The indices of the fitted parameters, in order. -/
def fitIndicesOf (params : List FitParameter) : List Nat :=
  (params.enum.filter fun ip => ip.2.isFitted).map Prod.fst

/-- The relative forward finite-difference step of a parameter value. -/
def perturbation (relStep v : ℚ) : ℚ :=
  if v = 0 then relStep else relStep * |v|

/-- Modelled from the spec: `FittingWidget::computeJacobian`. One column per
fitted parameter (fixed parameters contribute none), each the forward difference
of the residual vector under a relative perturbation of that parameter. The
matrix is stored by columns. -/
def computeJacobian (ctx : FitContext) (residuals : List ℚ) (fitIndices : List Nat)
    (modelType : Nat) (currentFitParams : List FitParameter) (weight : ℚ) :
    List (List ℚ) :=
  fitIndices.map fun idx =>
    let v := ((currentFitParams.get? idx).map FitParameter.value).getD 0
    let h := perturbation ctx.cfg.relStep v
    let shifted := calculateResiduals ctx.mgr ctx.obs
      (toParamMap (setValueAt currentFitParams idx (v + h))) modelType weight
    List.zipWith (fun r1 r0 => (r1 - r0) / h) shifted residuals

/-- The dot product of two vectors. -/
def dot (u v : List ℚ) : ℚ :=
  (List.zipWith (fun a b => a * b) u v).sum

/-- The damped normal equations `(JᵗJ + λ·diag(JᵗJ)) Δp = Jᵗr` of a Jacobian
stored by columns. -/
def dampedNormalEquations (cols : List (List ℚ)) (residuals : List ℚ) (lam : ℚ) :
    List (List ℚ) × List ℚ :=
  (cols.enum.map fun a =>
      cols.enum.map fun b =>
        if a.1 = b.1 then dot a.2 b.2 + lam * dot a.2 b.2 else dot a.2 b.2,
    cols.map fun c => dot c residuals)

/-- The hard clamp of a value to `[lo, hi]`. -/
def clamp (v lo hi : ℚ) : ℚ :=
  max lo (min v hi)

/-- Step 4 of an iteration: the step is subtracted from the fitted parameters,
one component per fitted parameter in order, and each result is clamped to the
bounds of its parameter; parameters that are not fitted are left as they are. -/
def applyStep : List FitParameter → List ℚ → List FitParameter
  | [], _ => []
  | p :: ps, ds =>
    if p.isFitted then
      match ds with
      | [] => { p with value := clamp p.value p.lowerBound p.upperBound } :: applyStep ps []
      | d :: ds1 =>
        { p with value := clamp (p.value - d) p.lowerBound p.upperBound } :: applyStep ps ds1
    else p :: applyStep ps ds

/-! ## The Levenberg–Marquardt state machine -/

/-- What the damping-retry loop of one iteration produced: an accepted candidate
with its error, the decreased damping factor and the squared norm of the step, or
no acceptable candidate within the retry cap. -/
inductive StepOutcome where
  | accepted (params : List FitParameter) (sse : ℚ) (lam : ℚ) (stepSq : ℚ)
  | failed

/-- Steps 3 to 5 of an iteration, with the retry cap as fuel: solve the damped
normal equations, apply the clamped step, and accept the candidate when its error
is smaller than the current one (damping divided by ten); otherwise, and also
when the system is singular, multiply the damping by ten and try again. -/
def tryStep (ctx : FitContext) (modelType : Nat) (weight : ℚ)
    (cols : List (List ℚ)) (residuals : List ℚ) (params : List FitParameter) (sse : ℚ) :
    Nat → ℚ → StepOutcome
  | 0, _ => StepOutcome.failed
  | n + 1, lam =>
    let eqs := dampedNormalEquations cols residuals lam
    match ctx.solveLinearSystem eqs.1 eqs.2 with
    | none => tryStep ctx modelType weight cols residuals params sse n (lam * 10)
    | some delta =>
      let cand := applyStep params delta
      let sseNew := sseOf ctx modelType weight cand
      if sseNew < sse then
        StepOutcome.accepted cand sseNew (lam / 10) (dot delta delta)
      else tryStep ctx modelType weight cols residuals params sse n (lam * 10)

/-- The state of the optimizer between iterations: the current (best) parameters,
the damping factor, the number of accepted iterations and the iteration events
emitted so far, oldest first. -/
structure LMState where
  params : List FitParameter
  lam : ℚ
  iter : Nat
  events : List IterationEvent

/-- The terminal result built from a state. -/
def finish (ctx : FitContext) (modelType : Nat) (weight : ℚ) (st : LMState)
    (reason : StopReason) : FitResult × List IterationEvent :=
  ({ parameters := st.params
     sumSquaredError := sseOf ctx modelType weight st.params
     iterationCount := st.iter
     converged := decide (reason = StopReason.Converged)
     stoppedReason := reason }, st.events)

/-- The iteration event of a freshly accepted parameter list. -/
def eventOf (ctx : FitContext) (modelType : Nat) (sse : ℚ)
    (params : List FitParameter) : IterationEvent :=
  let curves := ctx.mgr.evaluate modelType (toParamMap params) ctx.obs.obsTime
  { error := sse
    currentParams := toParamMap params
    t := ctx.obs.obsTime
    p := curves.1
    d := curves.2 }

/-- The iteration loop, with the number of iterations still allowed as fuel.
`stop k` is the value of the cancellation flag `m_stopRequested` read by the check
that precedes the iteration started after `k` accepted ones. A retry cap exhausted
without an acceptable candidate ends the run as failed (`SingularJacobian`). -/
def lmLoop (ctx : FitContext) (modelType : Nat) (weight : ℚ) (stop : Nat → Bool) :
    Nat → LMState → FitResult × List IterationEvent
  | 0, st => finish ctx modelType weight st StopReason.MaxIterations
  | fuel + 1, st =>
    if stop st.iter then finish ctx modelType weight st StopReason.Cancelled
    else
      let residuals :=
        calculateResiduals ctx.mgr ctx.obs (toParamMap st.params) modelType weight
      let sse := calculateSumSquaredError residuals
      let cols := computeJacobian ctx residuals (fitIndicesOf st.params) modelType
        st.params weight
      match tryStep ctx modelType weight cols residuals st.params sse ctx.cfg.retryCap
          st.lam with
      | StepOutcome.failed => finish ctx modelType weight st StopReason.SingularJacobian
      | StepOutcome.accepted cand sseNew lamNew stepSq =>
        let st1 : LMState :=
          { params := cand
            lam := lamNew
            iter := st.iter + 1
            events := st.events ++ [eventOf ctx modelType sseNew cand] }
        if sse - sseNew < ctx.cfg.tolSSE * sse ∨ stepSq < ctx.cfg.tolStep * ctx.cfg.tolStep then
          finish ctx modelType weight st1 StopReason.Converged
        else lmLoop ctx modelType weight stop fuel st1

/-- Modelled from the spec: `FittingWidget::runLevenbergMarquardtOptimization`,
declared in `wt_fittingwidget.h` and implemented outside the available sources.
The state machine of the optimizer: from the initial parameters, iterate (cancel
check, residuals, Jacobian, damped step with retries, clamp, accept or reject,
convergence test) until a terminal status is reached. It returns the fit result
and the iteration events emitted, oldest first. -/
def runLevenbergMarquardtOptimization (ctx : FitContext) (stop : Nat → Bool)
    (modelType : Nat) (params : List FitParameter) (weight : ℚ) :
    FitResult × List IterationEvent :=
  lmLoop ctx modelType weight stop ctx.cfg.maxIterations
    { params := params, lam := ctx.cfg.lambda0, iter := 0, events := [] }

/-- The errors of the events emitted so far never increase, and the last one is
the error of the current parameters. -/
def ErrorsDescend (ctx : FitContext) (modelType : Nat) (weight : ℚ) (st : LMState) : Prop :=
  List.Chain' (fun a b => b ≤ a) (st.events.map IterationEvent.error) ∧
    ∀ e ∈ st.events.getLast?, e.error = sseOf ctx modelType weight st.params


/-- A parameter whose value lies within its own bounds. -/
def FitParameter.InBounds (p : FitParameter) : Prop :=
  p.lowerBound ≤ p.value ∧ p.value ≤ p.upperBound

/-- What the clamp must not touch: the name, the bounds and the fitted flag. -/
def FitParameter.frame (p : FitParameter) : String × ℚ × ℚ × Bool :=
  (p.name, p.lowerBound, p.upperBound, p.isFitted)

/-- A one-parameter fit (the model `p(t) = a² · t` observed at three times) used to
run the optimizer on concrete data. -/
def sampleContext : FitContext :=
  { mgr :=
      { evaluate := fun _ pm ts =>
          let a := (pm.head?.map Prod.snd).getD 0
          (ts.map fun t => a * a * t, ts.map fun _ => 0) }
    obs := { obsTime := [1, 2, 3], obsDeltaP := [4, 8, 12], obsDerivative := [0, 0, 0] }
    cfg :=
      { maxIterations := 5, retryCap := 5, tolSSE := 1 / 1000000, tolStep := 1 / 1000000
        lambda0 := 1 / 100, relStep := 1 / 1000 }
    solveLinearSystem := fun A b =>
      match A, b with
      | [[a]], [y] => if a = 0 then none else some [y / a]
      | _, _ => none }

/-- The starting point of the sample fit. -/
def sampleParams : List FitParameter :=
  [{ name := "a", value := 1, lowerBound := 0, upperBound := 10, isFitted := true }]

/-! ## Bourdet derivative and smoothing -/

section Bourdet

variable {K : Type} [LinearOrderedField K]

/-- The left neighbour of point `i`: the nearest earlier point at least `L` away
in log-time, or the first point of the series when there is none. -/
def findLeftIndex (x : List K) (i : Nat) (L : K) : Nat :=
  ((List.range i).reverse.find? fun j => decide (L ≤ x.getD i 0 - x.getD j 0)).getD 0

/-- The right neighbour of point `i`: the nearest later point at least `L` away
in log-time, or the last point of the series when there is none. -/
def findRightIndex (x : List K) (i : Nat) (L : K) : Nat :=
  ((List.range' (i + 1) (x.length - (i + 1))).find? fun j =>
    decide (L ≤ x.getD j 0 - x.getD i 0)).getD (x.length - 1)

/-- The derivative at point `i` of a series given in log-time `x`: one-sided slope
at the first and the last point, elsewhere the backward and the forward slope, each
weighted by the log-time interval of the other side. -/
def bourdetAt (x p : List K) (L : K) (i : Nat) : K :=
  let l := findLeftIndex x i L
  let r := findRightIndex x i L
  let dL := x.getD i 0 - x.getD l 0
  let dR := x.getD r 0 - x.getD i 0
  let slopeL := (p.getD i 0 - p.getD l 0) / dL
  let slopeR := (p.getD r 0 - p.getD i 0) / dR
  if i = 0 then slopeR
  else if i + 1 = x.length then slopeL
  else (slopeL * dR + slopeR * dL) / (dL + dR)

/-- Modelled from the spec: `PressureDerivativeCalculator::calculateBourdetDerivative`,
called from `wt_plottingwidget.cpp` and implemented outside the available sources.
The log-time derivative of a pressure-difference series with spacing `L`; the
natural logarithm is the parameter `ln`. Fewer than two points give the empty
result. -/
def calculateBourdetDerivative (ln : K → K) (time pressureDiff : List K) (L : K) : List K :=
  if time.length < 2 then []
  else (List.range time.length).map fun i => bourdetAt (time.map ln) pressureDiff L i

end Bourdet

/-- The average of the values of `data` in the window of half-width `half` centred
at `i`, cut at the ends of the array. -/
def windowAverage (data : List ℚ) (i half : Nat) : ℚ :=
  let lo := i - half
  let hi := min (i + half) (data.length - 1)
  let w := (data.drop lo).take (hi - lo + 1)
  w.sum / w.length

/-- Modelled from the spec: `PressureDerivativeCalculator1::smoothData`, called
from `wt_plottingwidget.cpp` and implemented outside the available sources. A
factor of at most one is a no-op; otherwise every value is replaced by the average
over the window of `factor` points around it. -/
def smoothData (data : List ℚ) (factor : Int) : List ℚ :=
  if factor ≤ 1 then data
  else (List.range data.length).map fun i => windowAverage data i (factor.toNat / 2)

/-! ## Sensitivity values -/

/-- The tokens of a text separated by the delimiter `sep`, in order (empty tokens
included). -/
def splitTokens (sep : Char) : List Char → List (List Char)
  | [] => [[]]
  | c :: cs =>
    if c = sep then [] :: splitTokens sep cs
    else
      match splitTokens sep cs with
      | [] => [[c]]
      | tok :: toks => (c :: tok) :: toks

/-- Modelled from the spec: `FittingWidget::parseSensitivityValues`, declared in
`wt_fittingwidget.h` ("parse a comma separated string of values") and implemented
outside the available sources. The text is cut at the commas and the tokens are
visited in order; `toDouble` is `QString::toDouble` with its success flag, and a
token is appended to the result exactly when it converts. -/
def parseSensitivityValues (toDouble : List Char → Option ℚ) (text : List Char) : List ℚ :=
  (splitTokens ',' text).foldl
    (fun values token =>
      match toDouble token with
      | some v => values ++ [v]
      | none => values)
    []

/-- A parameter list that keeps the names, bounds and flags of `params0` and
holds every value within its bounds. -/
def WithinBoundsOf (params0 params : List FitParameter) : Prop :=
  (∀ q ∈ params, q.InBounds) ∧ params.map FitParameter.frame = params0.map FitParameter.frame

/-- A `QStandardItemModel` seen through `rowCount()` and `item(row, column)`: the
text of the item, or `none` where `item` returns a null pointer. -/
structure QStandardItemModel where
  rowCount : Nat
  item : Nat → Int → Option (List Char)

/-- The shut-in pressure read by `on_btn_Derivative_clicked`: the value of the
first row of the pressure column when the table has a row and that cell exists,
zero otherwise. -/
def shutInPressure (toDouble : List Char → ℚ) (model : QStandardItemModel) (yCol : Int) : ℚ :=
  if 0 < model.rowCount then
    match model.item 0 yCol with
    | some text => toDouble text
    | none => 0
  else 0

/-- The pressure difference of a row: against the initial pressure for test type
zero, against the shut-in pressure otherwise. -/
def pressureDifference (testType : Int) (initialPressure p_shutin p : ℚ) : ℚ :=
  if testType = 0 then |initialPressure - p| else |p - p_shutin|

/-- The body of the row loop of `on_btn_Derivative_clicked`: when both cells of row
`i` exist, the time and the pressure difference are appended to `xData` and
`yData` provided both are positive. -/
def derivativeRow (toDouble : List Char → ℚ) (model : QStandardItemModel) (xCol yCol : Int)
    (testType : Int) (initialPressure p_shutin : ℚ) (data : List ℚ × List ℚ) (i : Nat) :
    List ℚ × List ℚ :=
  match model.item i xCol, model.item i yCol with
  | some textX, some textY =>
    let t := toDouble textX
    let p := toDouble textY
    let dp := pressureDifference testType initialPressure p_shutin p
    if 0 < t ∧ 0 < dp then (data.1 ++ [t], data.2 ++ [dp]) else data
  | _, _ => data

/-- The part of `WT_PlottingWidget::on_btn_Derivative_clicked` that builds the
arrays `info.xData` and `info.yData` handed to `calculateBourdetDerivative`.
`source` is the table found in `m_dataMap` under the selected file name (`none`
when the map does not contain it); `toDouble` is `QString::toDouble`. -/
def on_btn_Derivative_clicked (toDouble : List Char → ℚ) (source : Option QStandardItemModel)
    (xCol yCol : Int) (testType : Int) (initialPressure : ℚ) : List ℚ × List ℚ :=
  match source with
  | none => ([], [])
  | some model =>
    (List.range model.rowCount).foldl
      (derivativeRow toDouble model xCol yCol testType initialPressure
        (shutInPressure toDouble model yCol))
      ([], [])

/-- What row `i` contributes: its time and pressure difference when both cells
exist and both values are positive, nothing otherwise. -/
def keptRow (toDouble : List Char → ℚ) (model : QStandardItemModel) (xCol yCol : Int)
    (testType : Int) (initialPressure : ℚ) (i : Nat) : Option (ℚ × ℚ) :=
  match model.item i xCol, model.item i yCol with
  | some textX, some textY =>
    let dp := pressureDifference testType initialPressure (shutInPressure toDouble model yCol)
      (toDouble textY)
    if 0 < toDouble textX ∧ 0 < dp then some (toDouble textX, dp) else none
  | _, _ => none

/-- The conversion of a text made of decimal digits only; every other text gives
zero, as a failed `toDouble` does. It stands for `QString::toDouble` on the
concrete tables below, whose cells are digit strings. -/
def digitsToDouble (text : List Char) : ℚ :=
  if text ≠ [] ∧ text.all Char.isDigit then
    ((text.foldl (fun n c => 10 * n + (c.toNat - '0'.toNat)) 0 : Nat) : ℚ)
  else 0

/-- The contributions of all rows of the selected table, in table order; nothing
when the file is not in the map. -/
def keptRows (toDouble : List Char → ℚ) (source : Option QStandardItemModel) (xCol yCol : Int)
    (testType : Int) (initialPressure : ℚ) : List (ℚ × ℚ) :=
  match source with
  | none => []
  | some model =>
    (List.range model.rowCount).filterMap
      (keptRow toDouble model xCol yCol testType initialPressure)

/-! ## Unique tab names (`fittingpage.cpp`) -/

/-- A piece of a string as `QString::arg` reads it: a plain character, or a place
marker `%n` / `%Ln` with its number, its locale flag and its text. -/
inductive ArgToken where
  | lit (c : Char)
  | escape (n : Nat) (isLocale : Bool) (raw : List Char)
deriving DecidableEq

/-- The value of a decimal digit, `none` for any other character (`QChar::digitValue`
on the ASCII digits). -/
def digitValue (c : Char) : Option Nat :=
  if c.isDigit then some (c.toNat - '0'.toNat) else none

/-- The number of a place marker read at the digits that follow `%` or `%L`: one
digit, or two when the next character is a digit too; with it the count of
characters read. -/
def escapeDigits : List Char → Option (Nat × Nat)
  | [] => none
  | [d1] => (digitValue d1).map fun a => (a, 1)
  | d1 :: d2 :: _ =>
    match digitValue d1 with
    | none => none
    | some a =>
      match digitValue d2 with
      | some b => some (10 * a + b, 2)
      | none => some (a, 1)

/-- The place marker that starts right after a `%`, if there is one: its number,
its locale flag and the count of characters it takes after the `%`. -/
def escapeAt : List Char → Option (Nat × Bool × Nat)
  | 'L' :: rest => (escapeDigits rest).map fun nk => (nk.1, true, nk.2 + 1)
  | cs => (escapeDigits cs).map fun nk => (nk.1, false, nk.2)

/-- The scan of `QString::arg` over a string, with the length of the string as
fuel: a `%` that starts a place marker yields the marker and the scan resumes
after it, every other character is plain text. -/
def tokenizeAux : Nat → List Char → List ArgToken
  | 0, _ => []
  | _ + 1, [] => []
  | fuel + 1, c :: cs =>
    if c = '%' then
      match escapeAt cs with
      | some (n, isLocale, k) =>
        ArgToken.escape n isLocale (c :: cs.take k) :: tokenizeAux fuel (cs.drop k)
      | none => ArgToken.lit c :: tokenizeAux fuel cs
    else ArgToken.lit c :: tokenizeAux fuel cs

/-- The plain characters and place markers of a string. -/
def tokenize (s : List Char) : List ArgToken :=
  tokenizeAux s.length s

/-- The lowest place-marker number of a string, if it has a marker. -/
def minEscape : List ArgToken → Option Nat
  | [] => none
  | ArgToken.lit _ :: ts => minEscape ts
  | ArgToken.escape n _ _ :: ts =>
    match minEscape ts with
    | none => some n
    | some m => some (min n m)

/-- The string in which every marker numbered `n` is replaced by `a` and everything
else is copied. -/
def replaceEscapes (a : List Char) (n : Nat) : List ArgToken → List Char
  | [] => []
  | ArgToken.lit c :: ts => c :: replaceEscapes a n ts
  | ArgToken.escape m _ raw :: ts =>
    if m = n then a ++ replaceEscapes a n ts else raw ++ replaceEscapes a n ts

/-- The call `QString::arg(const QString &a)`: the copy of `s` in which every occurrence of
the lowest numbered place marker is replaced by `a`; `s` itself when it has no
marker. -/
def arg (s a : List Char) : List Char :=
  match minEscape (tokenize s) with
  | none => s
  | some n => replaceEscapes a n (tokenize s)

/-- The call `QString::arg(int a)`: as `arg`, with the decimal text of `a` (the `%L` form is
given the same text: no digit grouping below a thousand). -/
def argInt (s : List Char) (a : Nat) : List Char :=
  arg s (Nat.toDigits 10 a)

/-- The expression `QString("%1 %2").arg(baseName).arg(counter)`. -/
def numberedName (baseName : List Char) (counter : Nat) : List Char :=
  argInt (arg ['%', '1', ' ', '%', '2'] baseName) counter

/-- The `while (exists)` loop of `generateUniqueName`, with fuel: when the current
name is the text of a tab, the counter is incremented and the next name is
formatted; otherwise the name is returned. `none` stands for fuel exhausted. -/
def generateUniqueNameLoop (tabTexts : List (List Char)) (baseName : List Char) :
    Nat → List Char → Nat → Option (List Char)
  | 0, _, _ => none
  | fuel + 1, name, counter =>
    if tabTexts.any (fun text => text == name) then
      generateUniqueNameLoop tabTexts baseName fuel (numberedName baseName (counter + 1))
        (counter + 1)
    else some name

/-- The method `FittingPage::generateUniqueName`: the loop started at the base name with the
counter at one; `tabTexts` are the texts of the tabs of `ui->tabWidget`, in order.
One pass more than there are tabs is all the loop can need. -/
def generateUniqueName (tabTexts : List (List Char)) (baseName : List Char) :
    Option (List Char) :=
  generateUniqueNameLoop tabTexts baseName (tabTexts.length + 1) baseName 1

/-- The number written by a text of decimal digits. -/
def readDecimal (text : List Char) : Nat :=
  text.foldl (fun n c => 10 * n + (c.toNat - '0'.toNat)) 0

/-- The name the loop of `generateUniqueName` holds when its counter is `counter`:
the base name at one, the formatted name from two on. -/
def nameAt (baseName : List Char) (counter : Nat) : List Char :=
  if counter ≤ 1 then baseName else numberedName baseName counter

/-! ## JSON values (`QJsonValue`, `QJsonObject`, `QJsonArray`) -/

/-- A JSON value as Qt holds it. An undefined value (the result of looking up a
missing key) behaves as `null` in every conversion used here. -/
inductive QJsonValue where
  | null
  | bool (b : Bool)
  | double (d : ℚ)
  | string (s : List Char)
  | array (items : List QJsonValue)
  | object (members : List (List Char × QJsonValue))

/-- A JSON object: its members, at most one per key once built with `insert`. -/
abbrev QJsonObject := List (List Char × QJsonValue)

/-- A JSON array. -/
abbrev QJsonArray := List QJsonValue

/-- The conversion `QJsonValue::toString()`: the text of a string value, the empty
string for any other value. -/
def QJsonValue.toString : QJsonValue → List Char
  | QJsonValue.string s => s
  | _ => []

/-- The conversion `QJsonValue::toArray()`: the items of an array value, the empty
array for any other value. -/
def QJsonValue.toArray : QJsonValue → QJsonArray
  | QJsonValue.array items => items
  | _ => []

/-- The conversion `QJsonValue::toObject()`: the members of an object value, the
empty object for any other value. -/
def QJsonValue.toObject : QJsonValue → QJsonObject
  | QJsonValue.object members => members
  | _ => []

/-- The test `QJsonValue::isArray()`. -/
def QJsonValue.isArray : QJsonValue → Bool
  | QJsonValue.array _ => true
  | _ => false

/-- The test `QJsonObject::contains(key)`. -/
def QJsonObject.contains (o : QJsonObject) (key : List Char) : Bool :=
  (o.lookup key).isSome

/-- The lookup `object[key]` on a constant object: the value stored under the key,
`null` when there is none. -/
def QJsonObject.value (o : QJsonObject) (key : List Char) : QJsonValue :=
  (o.lookup key).getD QJsonValue.null

/-- The assignment `object[key] = value`: the value replaces the one stored under
the key, if any. -/
def QJsonObject.insert (o : QJsonObject) (key : List Char) (v : QJsonValue) : QJsonObject :=
  (key, v) :: o.filter fun member => decide (member.1 ≠ key)

/-! ## The fitting page and its tabs (`fittingpage.cpp`) -/

/-- The tab widget of the fitting page: the tabs in order, each with its text and
its fitting widget, and the current index (`-1` when there is no tab). The type
`W` of the fitting widgets is a parameter: `FittingWidget` is implemented outside
the available sources. -/
structure FittingPage (W : Type) where
  tabs : List (List Char × W)
  currentIndex : Int

/-- The text `Analysis 1`. -/
def analysisOne : List Char :=
  ['A', 'n', 'a', 'l', 'y', 's', 'i', 's', ' ', '1']

/-- The key `_tabName` under which a saved page keeps the text of its tab. -/
def tabNameKey : List Char :=
  ['_', 't', 'a', 'b', 'N', 'a', 'm', 'e']

/-- The key `analyses` of the saved root object. -/
def analysesKey : List Char :=
  ['a', 'n', 'a', 'l', 'y', 's', 'e', 's']

/-- The key `version` of the saved root object. -/
def versionKey : List Char :=
  ['v', 'e', 'r', 's', 'i', 'o', 'n']

/-- The method `FittingPage::createNewTab`: a new fitting widget is appended as a
tab with the given text and made current. `newWidget` builds the widget (with the
model manager and the data models of the page) and, when the initial data is not
empty, calls `loadFittingState` on it with that data; it gets `none` when
`loadFittingState` is not called. -/
def createNewTab {W : Type} (newWidget : Option QJsonObject → W) (name : List Char)
    (initData : QJsonObject) (page : FittingPage W) : FittingPage W :=
  { tabs := page.tabs ++ [(name, newWidget (if initData.isEmpty then none else some initData))]
    currentIndex := page.tabs.length }

/-- The slot `FittingPage::on_btnDeleteAnalysis_clicked`; `answerYes` is the answer
to the confirmation question, asked only when the guards let the slot reach it.
Removing the current tab makes its right neighbour current, or the new last tab
when it was the last. -/
def on_btnDeleteAnalysis_clicked {W : Type} (answerYes : Bool) (page : FittingPage W) :
    FittingPage W :=
  if page.currentIndex < 0 then page
  else if page.tabs.length = 1 then page
  else if answerYes then
    { tabs := page.tabs.eraseIdx page.currentIndex.toNat
      currentIndex :=
        min page.currentIndex ((page.tabs.eraseIdx page.currentIndex.toNat).length - 1 : Int) }
  else page

/-- The method `FittingPage::saveAllFittingStates`: the root object handed to
`ModelParameter::saveFittingResult`. Every tab contributes the state its widget
returns from `getJsonState`, with the text of the tab stored under `_tabName`. -/
def saveAllFittingStates {W : Type} (getJsonState : W → QJsonObject) (page : FittingPage W) :
    QJsonObject :=
  let analysesArray : QJsonArray :=
    page.tabs.foldl
      (fun arr tab =>
        arr ++ [QJsonValue.object
          (QJsonObject.insert (getJsonState tab.2) tabNameKey (QJsonValue.string tab.1))])
      []
  QJsonObject.insert (QJsonObject.insert [] versionKey (QJsonValue.string ['2', '.', '0']))
    analysesKey (QJsonValue.array analysesArray)

/-- The loop of `loadAllFittingStates` over the saved analyses, from index `i`:
each one becomes a tab named by its `_tabName`, or `Analysis n` (counted from one)
when it has none. -/
def loadAnalyses {W : Type} (newWidget : Option QJsonObject → W) :
    List QJsonValue → Nat → FittingPage W → FittingPage W
  | [], _, page => page
  | v :: rest, i, page =>
    let pageObj := v.toObject
    let name :=
      if QJsonObject.contains pageObj tabNameKey then
        (QJsonObject.value pageObj tabNameKey).toString
      else argInt ['A', 'n', 'a', 'l', 'y', 's', 'i', 's', ' ', '%', '1'] (i + 1)
    loadAnalyses newWidget rest (i + 1) (createNewTab newWidget name pageObj page)

/-- The method `FittingPage::loadAllFittingStates`; `root` is the object returned
by `ModelParameter::getFittingResult`. -/
def loadAllFittingStates {W : Type} (newWidget : Option QJsonObject → W) (root : QJsonObject)
    (page : FittingPage W) : FittingPage W :=
  if root.isEmpty then
    if page.tabs.length = 0 then createNewTab newWidget analysisOne [] page else page
  else
    let cleared : FittingPage W := { tabs := [], currentIndex := -1 }
    let loaded :=
      if QJsonObject.contains root analysesKey && (QJsonObject.value root analysesKey).isArray
      then loadAnalyses newWidget (QJsonObject.value root analysesKey).toArray 0 cleared
      else createNewTab newWidget analysisOne root cleared
    if loaded.tabs.length = 0 then createNewTab newWidget analysisOne [] loaded else loaded

/-! ## Saving and loading a data sheet (`datasinglesheet.cpp`) -/

/-- The item model of a data sheet, seen through `rowCount()`, `columnCount()`,
`headerData(i, Qt::Horizontal).toString()` and `item(i, j)`: the text of the item,
or `none` where `item` returns a null pointer. -/
structure SheetItemModel where
  rowCount : Nat
  columnCount : Nat
  headerData : Nat → List Char
  item : Nat → Nat → Option (List Char)

/-- A column definition, of which only the name is set by the code embedded here;
its other fields keep their default values. -/
structure ColumnDefinition where
  name : List Char
deriving DecidableEq

/-- The state of a `DataSingleSheet` that saving and loading touch. -/
structure DataSingleSheet where
  m_filePath : List Char
  m_dataModel : SheetItemModel
  m_columnDefinitions : List ColumnDefinition

/-- The key `filePath` of a saved sheet. -/
def filePathKey : List Char :=
  ['f', 'i', 'l', 'e', 'P', 'a', 't', 'h']

/-- The key `headers` of a saved sheet. -/
def headersKey : List Char :=
  ['h', 'e', 'a', 'd', 'e', 'r', 's']

/-- The key `data` of a saved sheet. -/
def dataKey : List Char :=
  ['d', 'a', 't', 'a']

/-- The call `QStandardItemModel::clear()`: no rows, no columns, no header labels
(the header of column `j` then reads as the number `j + 1`). -/
def SheetItemModel.clear : SheetItemModel :=
  { rowCount := 0
    columnCount := 0
    headerData := fun j => Nat.toDigits 10 (j + 1)
    item := fun _ _ => none }

/-- The call `setHorizontalHeaderLabels(labels)`: the model gets as many columns as
there are labels, if it had fewer, and column `j` is labelled `labels[j]`. -/
def SheetItemModel.setHorizontalHeaderLabels (m : SheetItemModel) (labels : List (List Char)) :
    SheetItemModel :=
  { m with
    columnCount := max m.columnCount labels.length
    headerData := fun j => (labels.get? j).getD (m.headerData j) }

/-- The call `appendRow(items)` with items built from the given texts: a new last
row holding them, the model widened to their number if it had fewer columns. -/
def SheetItemModel.appendRow (m : SheetItemModel) (texts : List (List Char)) : SheetItemModel :=
  { m with
    rowCount := m.rowCount + 1
    columnCount := max m.columnCount texts.length
    item := fun i j => if i = m.rowCount then texts.get? j else m.item i j }

/-- The method `DataSingleSheet::serializeRows`: one array per row, holding for
every column the text of the item, or the empty string where there is no item. -/
def serializeRows (sheet : DataSingleSheet) : QJsonArray :=
  (List.range sheet.m_dataModel.rowCount).map fun i =>
    QJsonValue.array
      ((List.range sheet.m_dataModel.columnCount).map fun j =>
        match sheet.m_dataModel.item i j with
        | some text => QJsonValue.string text
        | none => QJsonValue.string [])

/-- The method `DataSingleSheet::saveToJson`. -/
def saveToJson (sheet : DataSingleSheet) : QJsonObject :=
  let headers : QJsonArray :=
    (List.range sheet.m_dataModel.columnCount).map fun i =>
      QJsonValue.string (sheet.m_dataModel.headerData i)
  QJsonObject.insert
    (QJsonObject.insert
      (QJsonObject.insert [] filePathKey (QJsonValue.string sheet.m_filePath))
      headersKey (QJsonValue.array headers))
    dataKey (QJsonValue.array (serializeRows sheet))

/-- The method `DataSingleSheet::deserializeRows`: every element of the array
becomes a row appended to the model, its values converted to texts. -/
def deserializeRows (array : QJsonArray) (m : SheetItemModel) : SheetItemModel :=
  array.foldl (fun model val => model.appendRow (val.toArray.map QJsonValue.toString)) m

/-- The method `DataSingleSheet::loadFromJson`: the model and the column
definitions are emptied, then rebuilt from the saved object. What the sheet held
before does not matter. -/
def loadFromJson (jsonSheet : QJsonObject) (_sheet : DataSingleSheet) : DataSingleSheet :=
  let sl := (QJsonObject.value jsonSheet headersKey).toArray.map QJsonValue.toString
  { m_filePath := (QJsonObject.value jsonSheet filePathKey).toString
    m_dataModel :=
      deserializeRows (QJsonObject.value jsonSheet dataKey).toArray
        (SheetItemModel.clear.setHorizontalHeaderLabels sl)
    m_columnDefinitions := sl.map fun s => { name := s } }

/-- The texts `serializeRows` writes for a sheet: per row and column the text of the
item, the empty string where there is none. -/
def cellTexts (m : SheetItemModel) : List (List (List Char)) :=
  (List.range m.rowCount).map fun i =>
    (List.range m.columnCount).map fun j => (m.item i j).getD []

/-! ## The chart widget (`chartwidget.cpp`) -/

/-- The range of an axis (`QCPRange`). -/
structure QCPRange where
  lower : ℚ
  upper : ℚ
deriving DecidableEq

/-- An axis rect, seen through the ranges of its bottom axis (`xRange`) and of its
left axis (`yRange`). -/
structure QCPAxisRect where
  xRange : QCPRange
  yRange : QCPRange
deriving DecidableEq

/-- The layout modes of the chart widget. -/
inductive ChartMode where
  | Mode_Single
  | Mode_Stacked
deriving DecidableEq

/-- The axis rect an item is bound to: the rect of single mode, or the top or the
bottom rect of stacked mode. -/
inductive RectRole where
  | single
  | top
  | bottom
deriving DecidableEq

/-- The pen colour of an event line. -/
inductive PenColor where
  | red
  | green
deriving DecidableEq

/-- An event line (`QCPItemLine` created by `addEventLine`): its identity (`id`
stands for the pointer), the axis rect it is bound and clipped to, its two end
points (abscissa in plot coordinates, ordinate as a ratio of the rect), its colour
and the identity stored in its `sibling` property, if any. -/
structure QCPItemLine where
  id : Nat
  axisRect : RectRole
  startCoords : ℚ × ℚ
  endCoords : ℚ × ℚ
  color : PenColor
  sibling : Option Nat
deriving DecidableEq

/-- The state of a `ChartWidget`: its mode, the axis rect of single mode (the one
`m_plot->axisRect()` returns there, carrying `xAxis` and `yAxis`), the two rects
of stacked mode, the event lines, the number of items created so far (the next
item gets it as identity) and the title. -/
structure ChartWidget where
  m_chartMode : ChartMode
  axisRect : Option QCPAxisRect
  m_topRect : Option QCPAxisRect
  m_bottomRect : Option QCPAxisRect
  m_eventLines : List QCPItemLine
  itemsCreated : Nat
  title : List Char
deriving DecidableEq

/-- A freshly created axis rect: both axes at the initial range of an axis. -/
def newAxisRect : QCPAxisRect :=
  { xRange := { lower := 0, upper := 5 }, yRange := { lower := 0, upper := 5 } }

/-- The widget as its constructor leaves it: single mode with the default axis
rect, no stacked rects, no event lines. -/
def ChartWidget.initial : ChartWidget :=
  { m_chartMode := ChartMode.Mode_Single
    axisRect := some newAxisRect
    m_topRect := none
    m_bottomRect := none
    m_eventLines := []
    itemsCreated := 0
    title := [] }

/-- What the constructor and `setChartMode` guarantee: single mode has its axis
rect, stacked mode has both of its rects. -/
def ChartWidget.WellFormed (w : ChartWidget) : Prop :=
  (w.m_chartMode = ChartMode.Mode_Single → w.axisRect.isSome = true) ∧
    (w.m_chartMode = ChartMode.Mode_Stacked →
      w.m_topRect.isSome = true ∧ w.m_bottomRect.isSome = true)

/-- The method `ChartWidget::setChartMode`: nothing when the mode is the current
one; otherwise the axis rects are removed and those of the new mode created. -/
def ChartWidget.setChartMode (w : ChartWidget) (mode : ChartMode) : ChartWidget :=
  if w.m_chartMode = mode then w
  else
    match mode with
    | ChartMode.Mode_Single =>
      { w with
        m_chartMode := mode
        axisRect := some newAxisRect
        m_topRect := none
        m_bottomRect := none }
    | ChartMode.Mode_Stacked =>
      { w with
        m_chartMode := mode
        axisRect := none
        m_topRect := some newAxisRect
        m_bottomRect := some newAxisRect }

/-- The method `ChartWidget::getTopRect`. -/
def ChartWidget.getTopRect (w : ChartWidget) : Option QCPAxisRect :=
  if w.m_chartMode = ChartMode.Mode_Single then w.axisRect else w.m_topRect

/-- The method `ChartWidget::getBottomRect`. -/
def ChartWidget.getBottomRect (w : ChartWidget) : Option QCPAxisRect :=
  if w.m_chartMode = ChartMode.Mode_Single then none else w.m_bottomRect

/-- The method `ChartWidget::clearEventLines`: the lines are removed from the plot
and the list is emptied. -/
def ChartWidget.clearEventLines (w : ChartWidget) : ChartWidget :=
  { w with m_eventLines := [] }

/-- The method `ChartWidget::clearGraphs`, as far as the state kept here goes: the
event lines are cleared. -/
def ChartWidget.clearGraphs (w : ChartWidget) : ChartWidget :=
  w.clearEventLines

/-- The method `ChartWidget::setTitle`. -/
def ChartWidget.setTitle (w : ChartWidget) (title : List Char) : ChartWidget :=
  { w with title := title }

/-- The helper `createLine` of `addEventLine`: no line for a null rect; otherwise a
new item bound to the rect, running from the bottom (`1`) to the top (`0`) of the
rect at abscissa `x`. -/
def createLine (rect : Option QCPAxisRect) (role : RectRole) (x : ℚ) (color : PenColor)
    (id : Nat) : Option QCPItemLine :=
  match rect with
  | none => none
  | some _ =>
    some { id := id, axisRect := role, startCoords := (x, 1), endCoords := (x, 0)
           color := color, sibling := none }

/-- The method `ChartWidget::addEventLine(x, type)`: in stacked mode one line in
the top rect and one in the bottom rect, each made the sibling of the other when
both exist; otherwise one line in the axis rect of the plot. The lines created
are appended to `m_eventLines`, the top one first. -/
def ChartWidget.addEventLine (w : ChartWidget) (x : ℚ) (type : Int) : ChartWidget :=
  let color := if type = 0 then PenColor.red else PenColor.green
  if w.m_chartMode = ChartMode.Mode_Stacked then
    match createLine w.m_topRect RectRole.top x color w.itemsCreated with
    | none =>
      match createLine w.m_bottomRect RectRole.bottom x color w.itemsCreated with
      | none => w
      | some lineBottom =>
        { w with m_eventLines := w.m_eventLines ++ [lineBottom]
                 itemsCreated := w.itemsCreated + 1 }
    | some lineTop =>
      match createLine w.m_bottomRect RectRole.bottom x color (w.itemsCreated + 1) with
      | none =>
        { w with m_eventLines := w.m_eventLines ++ [lineTop]
                 itemsCreated := w.itemsCreated + 1 }
      | some lineBottom =>
        { w with
          m_eventLines := w.m_eventLines ++
            [{ lineTop with sibling := some lineBottom.id },
              { lineBottom with sibling := some lineTop.id }]
          itemsCreated := w.itemsCreated + 2 }
  else
    match createLine w.axisRect RectRole.single x color w.itemsCreated with
    | none => w
    | some line =>
      { w with m_eventLines := w.m_eventLines ++ [line]
               itemsCreated := w.itemsCreated + 1 }

/-- The call `setRange` on the bottom axis of the top rect. In stacked mode
`setChartMode` connects the bottom axes of the two rects to each other, so the
bottom rect follows. -/
def ChartWidget.setTopXRange (w : ChartWidget) (r : QCPRange) : ChartWidget :=
  { w with
    m_topRect := w.m_topRect.map fun rect => { rect with xRange := r }
    m_bottomRect := w.m_bottomRect.map fun rect => { rect with xRange := r } }

/-- The call `setRange` on the bottom axis of the bottom rect; the top rect
follows. -/
def ChartWidget.setBottomXRange (w : ChartWidget) (r : QCPRange) : ChartWidget :=
  { w with
    m_topRect := w.m_topRect.map fun rect => { rect with xRange := r }
    m_bottomRect := w.m_bottomRect.map fun rect => { rect with xRange := r } }

/-- The call `setRange` on the left axis of the top rect. -/
def ChartWidget.setTopYRange (w : ChartWidget) (r : QCPRange) : ChartWidget :=
  { w with m_topRect := w.m_topRect.map fun rect => { rect with yRange := r } }

/-- The call `setRange` on the left axis of the bottom rect. -/
def ChartWidget.setBottomYRange (w : ChartWidget) (r : QCPRange) : ChartWidget :=
  { w with m_bottomRect := w.m_bottomRect.map fun rect => { rect with yRange := r } }

/-- The call `plot->xAxis->setRange` of single mode. -/
def ChartWidget.setXRange (w : ChartWidget) (r : QCPRange) : ChartWidget :=
  { w with axisRect := w.axisRect.map fun rect => { rect with xRange := r } }

/-- The call `plot->yAxis->setRange` of single mode. -/
def ChartWidget.setYRange (w : ChartWidget) (r : QCPRange) : ChartWidget :=
  { w with axisRect := w.axisRect.map fun rect => { rect with yRange := r } }

/-! ## The plotting widget (`wt_plottingwidget.cpp`) -/

/-- A stored curve (`CurveInfo`), reduced to the fields the code embedded here
reads: its name, its type (`1` pressure and rate, `2` derivative, else a simple
curve), the kind of the rate graph and the data arrays. -/
structure CurveInfo where
  name : List Char
  type : Int
  prodGraphType : Int
  xData : List ℚ
  yData : List ℚ
  x2Data : List ℚ
  y2Data : List ℚ
deriving DecidableEq

/-- A default-constructed curve. -/
def CurveInfo.default : CurveInfo :=
  { name := [], type := 0, prodGraphType := 0, xData := [], yData := [], x2Data := [],
    y2Data := [] }

/-- The saved view of a curve (`ViewState`). -/
structure ViewState where
  saved : Bool
  xRange : QCPRange
  yRange : QCPRange
  topXRange : QCPRange
  topYRange : QCPRange
  bottomXRange : QCPRange
  bottomYRange : QCPRange
deriving DecidableEq

/-- A default-constructed view state: nothing saved, all ranges `(0, 0)`. -/
def ViewState.default : ViewState :=
  { saved := false
    xRange := { lower := 0, upper := 0 }, yRange := { lower := 0, upper := 0 }
    topXRange := { lower := 0, upper := 0 }, topYRange := { lower := 0, upper := 0 }
    bottomXRange := { lower := 0, upper := 0 }, bottomYRange := { lower := 0, upper := 0 } }

/-- A `QMap<QString, V>`: at most one value per key. -/
abbrev QMap (V : Type) := AList fun _ : List Char => V

/-- The state of the plotting widget: the stored curves and view states, the name
of the curve on display (empty when there is none) and the chart. -/
structure WT_PlottingWidget where
  m_curves : QMap CurveInfo
  m_viewStates : QMap ViewState
  m_currentDisplayedCurve : List Char
  customPlot : ChartWidget

/-- The slot `WT_PlottingWidget::onChartTitleChanged`, without the update of the
list widget, which touches none of the fields kept here. -/
def onChartTitleChanged (newTitle : List Char) (w : WT_PlottingWidget) : WT_PlottingWidget :=
  if w.m_currentDisplayedCurve.isEmpty then w
  else if newTitle = w.m_currentDisplayedCurve then w
  else if newTitle ∈ w.m_curves then
    { w with customPlot := w.customPlot.setTitle w.m_currentDisplayedCurve }
  else
    let info := (w.m_curves.lookup w.m_currentDisplayedCurve).getD CurveInfo.default
    let curves := (w.m_curves.erase w.m_currentDisplayedCurve).insert newTitle
      { info with name := newTitle }
    let viewStates :=
      match w.m_viewStates.lookup w.m_currentDisplayedCurve with
      | some state => (w.m_viewStates.erase w.m_currentDisplayedCurve).insert newTitle state
      | none => w.m_viewStates
    { w with
      m_curves := curves
      m_viewStates := viewStates
      m_currentDisplayedCurve := newTitle }

/-- The view state built by `saveCurveViewState` from the chart: marked as saved,
with the ranges of the two rects in stacked mode (those that exist), of `xAxis`
and `yAxis` otherwise. -/
def captureViewState (c : ChartWidget) : ViewState :=
  let state0 : ViewState := { ViewState.default with saved := true }
  if c.m_chartMode = ChartMode.Mode_Stacked then
    let state1 : ViewState :=
      match c.getTopRect with
      | some rect => { state0 with topXRange := rect.xRange, topYRange := rect.yRange }
      | none => state0
    match c.getBottomRect with
    | some rect => { state1 with bottomXRange := rect.xRange, bottomYRange := rect.yRange }
    | none => state1
  else
    match c.axisRect with
    | some rect => { state0 with xRange := rect.xRange, yRange := rect.yRange }
    | none => state0

/-- The method `WT_PlottingWidget::saveCurveViewState`. -/
def saveCurveViewState (name : List Char) (w : WT_PlottingWidget) : WT_PlottingWidget :=
  if name.isEmpty then w
  else { w with m_viewStates := w.m_viewStates.insert name (captureViewState w.customPlot) }

/-- The ranges set by `restoreCurveViewState` from a saved view state: in stacked
mode those of the top rect, then those of the bottom rect (each when the rect
exists), otherwise those of `xAxis` and `yAxis`. -/
def applyViewState (state : ViewState) (c : ChartWidget) : ChartWidget :=
  if c.m_chartMode = ChartMode.Mode_Stacked then
    let c1 :=
      match c.getTopRect with
      | some _ => (c.setTopXRange state.topXRange).setTopYRange state.topYRange
      | none => c
    match c1.getBottomRect with
    | some _ => (c1.setBottomXRange state.bottomXRange).setBottomYRange state.bottomYRange
    | none => c1
  else (c.setXRange state.xRange).setYRange state.yRange

/-- The method `WT_PlottingWidget::restoreCurveViewState`. -/
def restoreCurveViewState (name : List Char) (w : WT_PlottingWidget) : WT_PlottingWidget :=
  match w.m_viewStates.lookup name with
  | none => w
  | some state =>
    if !state.saved then w else { w with customPlot := applyViewState state w.customPlot }

/-- The ranges `rescaleAxes` gives the axes, for a curve drawn on a chart. They
depend on the data in ways QCustomPlot decides; nothing is assumed of them. -/
structure AutoScale where
  xRange : CurveInfo → ChartWidget → QCPRange
  yRange : CurveInfo → ChartWidget → QCPRange
  pressXRange : CurveInfo → ChartWidget → QCPRange
  pressYRange : CurveInfo → ChartWidget → QCPRange
  prodXRange : CurveInfo → ChartWidget → QCPRange
  prodYRange : CurveInfo → ChartWidget → QCPRange

/-- The threshold under which a rate counts as shut in: the value of the `double`
literal `1e-9`, which is the binary fraction `4835703278458517 / 2 ^ 82`, the
`double` nearest to `1 / 10 ^ 9` and slightly above it. -/
def rateThreshold : ℚ :=
  4835703278458517 / 2 ^ 82

/-- The test `isAbsoluteTime` of the step-chart branch: more than one time, each
later than the one before. -/
def isAbsoluteTime (x2Data : List ℚ) : Bool :=
  decide (1 < x2Data.length) &&
    (List.range (x2Data.length - 1)).all fun i =>
      !decide (x2Data.getD (i + 1) 0 ≤ x2Data.getD i 0)

/-- The points `px`, `py` of the step-chart branch of `drawStackedPlot`: the data
as they are when the times are absolute, otherwise the durations accumulated from
zero, each paired with the rate of the following period (of the same period when
there is no following rate). -/
def stepPoints (x2Data y2Data : List ℚ) : List ℚ × List ℚ :=
  if isAbsoluteTime x2Data && !x2Data.isEmpty then (x2Data, y2Data)
  else
    let start : ℚ × List ℚ × List ℚ :=
      if !x2Data.isEmpty && !y2Data.isEmpty then (0, [0], [y2Data.getD 0 0]) else (0, [], [])
    let final := (List.range x2Data.length).foldl
      (fun (acc : ℚ × List ℚ × List ℚ) i =>
        let tCum := acc.1 + x2Data.getD i 0
        if i + 1 < y2Data.length then
          (tCum, acc.2.1 ++ [tCum], acc.2.2 ++ [y2Data.getD (i + 1) 0])
        else if i < y2Data.length then
          (tCum, acc.2.1 ++ [tCum], acc.2.2 ++ [y2Data.getD i 0])
        else (tCum, acc.2.1, acc.2.2))
      start
    (final.2.1, final.2.2)

/-- The calls of `addEventLine` made by the step-chart branch of `drawStackedPlot`
for the points `px`, `py`, in order, each as its arguments `(x, type)`: a shut-in
line (`0`) where the rate falls to the threshold or below, an open line (`1`)
where it rises above it. -/
def stepEventLines (px py : List ℚ) : List (ℚ × Int) :=
  if px.length = py.length ∧ 1 < px.length then
    (List.range (px.length - 1)).foldl
      (fun calls i =>
        let valCurrent := py.getD i 0
        let valNext := py.getD (i + 1) 0
        let timeNext := px.getD (i + 1) 0
        if rateThreshold < valCurrent ∧ valNext ≤ rateThreshold then calls ++ [(timeNext, 0)]
        else if valCurrent ≤ rateThreshold ∧ rateThreshold < valNext then
          calls ++ [(timeNext, 1)]
        else calls)
      []
  else []

/-- The method `WT_PlottingWidget::drawStackedPlot`, as far as the chart state kept
here goes: the event lines are cleared; without both rects nothing else happens;
otherwise the step-chart branch adds its event lines and the two graphs rescale
their axes, the pressure graph first. -/
def drawStackedPlot (auto : AutoScale) (info : CurveInfo) (widget : ChartWidget) :
    ChartWidget :=
  let w0 := widget.clearEventLines
  match w0.getTopRect, w0.getBottomRect with
  | some _, some _ =>
    let w1 :=
      if info.prodGraphType = 0 then
        let pts := stepPoints info.x2Data info.y2Data
        (stepEventLines pts.1 pts.2).foldl (fun w call => w.addEventLine call.1 call.2) w0
      else w0
    let w2 := (w1.setTopXRange (auto.pressXRange info w1)).setTopYRange (auto.pressYRange info w1)
    (w2.setBottomXRange (auto.prodXRange info w2)).setBottomYRange (auto.prodYRange info w2)
  | _, _ => w0

/-- The chart mode a curve is drawn in: stacked for pressure and rate, single
otherwise. -/
def chartModeOf (info : CurveInfo) : ChartMode :=
  if info.type = 1 then ChartMode.Mode_Stacked else ChartMode.Mode_Single

/-- The method `WT_PlottingWidget::displayCurve` on the main chart: graphs and
event lines are cleared, the title is set, the chart is put in the mode of the
curve, and the curve is drawn, which rescales the axes. -/
def displayCurve (auto : AutoScale) (info : CurveInfo) (widget : ChartWidget) : ChartWidget :=
  let w0 := (widget.clearGraphs).setTitle info.name
  if info.type = 1 then
    drawStackedPlot auto info (w0.setChartMode ChartMode.Mode_Stacked)
  else
    let w1 := w0.setChartMode ChartMode.Mode_Single
    (w1.setXRange (auto.xRange info w1)).setYRange (auto.yRange info w1)

/-- The slot `WT_PlottingWidget::on_listWidget_Curves_itemDoubleClicked`; `name` is
the text of the item. -/
def on_listWidget_Curves_itemDoubleClicked (auto : AutoScale) (name : List Char)
    (w : WT_PlottingWidget) : WT_PlottingWidget :=
  match w.m_curves.lookup name with
  | none => w
  | some info =>
    let w1 :=
      if !w.m_currentDisplayedCurve.isEmpty then saveCurveViewState w.m_currentDisplayedCurve w
      else w
    let w2 : WT_PlottingWidget :=
      { w1 with
        m_currentDisplayedCurve := name
        customPlot := displayCurve auto info w1.customPlot }
    restoreCurveViewState name w2

/-- What the step-chart branch asks for between point `i` and point `i + 1`: a
shut-in line, an open line, or nothing. -/
def stepEventAt (px py : List ℚ) (i : Nat) : Option (ℚ × Int) :=
  if rateThreshold < py.getD i 0 ∧ py.getD (i + 1) 0 ≤ rateThreshold then
    some (px.getD (i + 1) 0, 0)
  else if py.getD i 0 ≤ rateThreshold ∧ rateThreshold < py.getD (i + 1) 0 then
    some (px.getD (i + 1) 0, 1)
  else none

/-- A stored curve named `A`. -/
def curveA : CurveInfo :=
  { CurveInfo.default with name := ['A'] }

/-- A plotting widget that stores the curve `A` and displays no curve, its chart
title just edited to `A`. -/
def nothingDisplayed : WT_PlottingWidget :=
  { m_curves := (∅ : QMap CurveInfo).insert ['A'] curveA
    m_viewStates := ∅
    m_currentDisplayedCurve := []
    customPlot := ChartWidget.initial.setTitle ['A'] }

/-- A plotting widget that stores and displays the curve `A` and stores a curve
`B`, its chart title just edited to `B`. -/
def displayingA : WT_PlottingWidget :=
  { m_curves := ((∅ : QMap CurveInfo).insert ['A'] curveA).insert ['B']
      { CurveInfo.default with name := ['B'] }
    m_viewStates := ∅
    m_currentDisplayedCurve := ['A']
    customPlot := ChartWidget.initial.setTitle ['B'] }

/-- The coupling of the two time axes of a stacked chart: `setChartMode` connects
the bottom axes of the top and the bottom rect to each other, so every range set
on one is set on the other and the two ranges agree. -/
def ChartWidget.AxesLinked (c : ChartWidget) : Prop :=
  c.m_chartMode = ChartMode.Mode_Stacked →
    ∀ t b, c.m_topRect = some t → c.m_bottomRect = some b → t.xRange = b.xRange

/-- The curve `name`, stored as `info`, is on display: it is the current curve, and
the chart is a well-formed chart in the mode of the curve with its time axes
coupled. -/
def WT_PlottingWidget.Displays (w : WT_PlottingWidget) (name : List Char)
    (info : CurveInfo) : Prop :=
  w.m_curves.lookup name = some info ∧ w.m_currentDisplayedCurve = name ∧
    w.customPlot.m_chartMode = chartModeOf info ∧ w.customPlot.WellFormed ∧
    w.customPlot.AxesLinked

/-- Two charts with the same mode and the same axis rects present. -/
def ChartWidget.SameShape (c d : ChartWidget) : Prop :=
  c.m_chartMode = d.m_chartMode ∧ c.axisRect.isSome = d.axisRect.isSome ∧
    c.m_topRect.isSome = d.m_topRect.isSome ∧ c.m_bottomRect.isSome = d.m_bottomRect.isSome

/-- An automatic scaling that gives every axis the range `(0, 10)`. -/
def sampleAutoScale : AutoScale :=
  { xRange := fun _ _ => { lower := 0, upper := 10 }
    yRange := fun _ _ => { lower := 0, upper := 10 }
    pressXRange := fun _ _ => { lower := 0, upper := 10 }
    pressYRange := fun _ _ => { lower := 0, upper := 10 }
    prodXRange := fun _ _ => { lower := 0, upper := 10 }
    prodYRange := fun _ _ => { lower := 0, upper := 10 } }

/-- A stored pressure-and-rate curve named `B`, with a rate that is shut in at time
two and opened again at time three. -/
def curveB : CurveInfo :=
  { name := ['B'], type := 1, prodGraphType := 0, xData := [1, 2, 3], yData := [5, 6, 7]
    x2Data := [1, 2, 3, 4], y2Data := [8, 0, 9, 9] }

/-- A plotting widget that stores the curves `A` and `B` and displays `A`, zoomed
to the ranges `(1, 2)` and `(3, 4)`. -/
def zoomedOnA : WT_PlottingWidget :=
  { m_curves := ((∅ : QMap CurveInfo).insert ['A'] curveA).insert ['B'] curveB
    m_viewStates := ∅
    m_currentDisplayedCurve := ['A']
    customPlot :=
      { ChartWidget.initial with
        axisRect := some { xRange := { lower := 1, upper := 2 }
                           yRange := { lower := 3, upper := 4 } }
        title := ['A'] } }

/-- The widget `zoomedOnA` after the title of its chart was cleared: the chart
carries the empty title and `onChartTitleChanged` has run with it, which stores
the curve on display under the empty name. The curves `A` (now without a name)
and `B` are stored, and the chart still shows the first, zoomed to the ranges
`(1, 2)` and `(3, 4)`. -/
def zoomedOnUnnamed : WT_PlottingWidget :=
  onChartTitleChanged [] { zoomedOnA with customPlot := zoomedOnA.customPlot.setTitle [] }

/-- A sheet of two rows and two columns with headers `t` and `p`, whose cell in
the second row and second column is missing. -/
def sampleSheet : DataSingleSheet :=
  { m_filePath := ['a', '.', 'c', 's', 'v']
    m_dataModel :=
      { rowCount := 2
        columnCount := 2
        headerData := fun j => if j = 0 then ['t'] else ['p']
        item := fun i j =>
          if i = 0 ∧ j = 0 then some ['1']
          else if i = 0 ∧ j = 1 then some ['5']
          else if i = 1 ∧ j = 0 then some ['2']
          else none }
    m_columnDefinitions := [] }
/-! # Part II: verified properties -/

/-! ## Properties of the optimizer -/

/-- An accepted candidate has a smaller error than the one it replaces, and its
recorded error is the sum of squared residuals of its parameters. -/
theorem tryStep_accepted (ctx : FitContext) (modelType : Nat) (weight : ℚ)
    (cols : List (List ℚ)) (residuals : List ℚ) (params : List FitParameter) (sse : ℚ)
    (n : Nat) (lam : ℚ) (cand : List FitParameter) (sseNew lamNew stepSq : ℚ)
    (h : tryStep ctx modelType weight cols residuals params sse n lam
      = StepOutcome.accepted cand sseNew lamNew stepSq) :
    sseNew < sse ∧ sseNew = sseOf ctx modelType weight cand := by
  induction n generalizing lam with
  | zero => simp [tryStep] at h
  | succ n ih =>
    simp only [tryStep] at h
    split at h
    · exact ih _ h
    · split at h
      · cases h
        exact ⟨by assumption, rfl⟩
      · exact ih _ h

/-- Induction over the iteration loop: a property of the state that every accepted
iteration preserves holds of the state from which the result is built. -/
theorem lmLoop_invariant (ctx : FitContext) (modelType : Nat) (weight : ℚ)
    (stop : Nat → Bool) (Q : LMState → Prop)
    (hstep : ∀ (st : LMState) (cand : List FitParameter) (sseNew lamNew stepSq : ℚ),
      Q st → stop st.iter = false →
      tryStep ctx modelType weight
          (computeJacobian ctx
            (calculateResiduals ctx.mgr ctx.obs (toParamMap st.params) modelType weight)
            (fitIndicesOf st.params) modelType st.params weight)
          (calculateResiduals ctx.mgr ctx.obs (toParamMap st.params) modelType weight)
          st.params (sseOf ctx modelType weight st.params) ctx.cfg.retryCap st.lam
        = StepOutcome.accepted cand sseNew lamNew stepSq →
      Q { params := cand, lam := lamNew, iter := st.iter + 1
          events := st.events ++ [eventOf ctx modelType sseNew cand] })
    (fuel : Nat) (st : LMState) (h : Q st) :
    ∃ (st1 : LMState) (reason : StopReason), Q st1 ∧
      lmLoop ctx modelType weight stop fuel st = finish ctx modelType weight st1 reason := by
  induction fuel generalizing st with
  | zero => exact ⟨st, _, h, rfl⟩
  | succ fuel ih =>
    simp only [lmLoop]
    split
    · exact ⟨st, _, h, rfl⟩
    · rename_i hs
      split
      · exact ⟨st, _, h, rfl⟩
      · rename_i cand sseNew lamNew stepSq heq
        have hq := hstep st cand sseNew lamNew stepSq h (by simpa using hs) heq
        split
        · exact ⟨_, _, hq, rfl⟩
        · exact ih _ hq

/-- C1: in a fit run of `runLevenbergMarquardtOptimization` the error carried by
the iteration events, one per accepted iteration in order, never increases: each
accepted iteration has a sum of squared residuals at most that of the accepted
iteration before it. -/
theorem sse_nonincreasing_across_accepted (ctx : FitContext) (stop : Nat → Bool)
    (modelType : Nat) (params : List FitParameter) (weight : ℚ) :
    List.Chain' (fun sseK sseK1 => sseK1 ≤ sseK)
      ((runLevenbergMarquardtOptimization ctx stop modelType params weight).2.map
        IterationEvent.error) := by
  obtain ⟨st1, reason, hq, heq⟩ := lmLoop_invariant ctx modelType weight stop
    (ErrorsDescend ctx modelType weight) (by
      intro st cand sseNew lamNew stepSq hQ _ hacc
      obtain ⟨hlt, hsse⟩ := tryStep_accepted _ _ _ _ _ _ _ _ _ _ _ _ _ hacc
      refine ⟨?_, ?_⟩
      · simp only [List.map_append, List.map_cons, List.map_nil]
        refine List.Chain'.append hQ.1 (List.chain'_singleton _) ?_
        intro x hx y hy
        simp only [List.head?_cons, Option.mem_def, Option.some.injEq] at hy
        subst hy
        rw [List.getLast?_map] at hx
        simp only [Option.mem_def, Option.map_eq_some'] at hx
        obtain ⟨e, he, rfl⟩ := hx
        rw [hQ.2 e he]
        exact le_of_lt hlt
      · intro e he
        simp only [List.getLast?_append, List.getLast?_singleton, Option.or_some,
          Option.mem_def, Option.some.injEq, Option.or] at he
        subst he
        exact hsse)
    ctx.cfg.maxIterations
    { params := params, lam := ctx.cfg.lambda0, iter := 0, events := [] }
    ⟨by simp, by simp⟩
  unfold runLevenbergMarquardtOptimization
  rw [heq]
  exact hq.1


/-- The clamp lands in `[lo, hi]` as soon as the interval is not empty. -/
theorem clamp_mem (v lo hi : ℚ) (h : lo ≤ hi) : lo ≤ clamp v lo hi ∧ clamp v lo hi ≤ hi := by
  unfold clamp
  exact ⟨le_max_left _ _, max_le h (min_le_right _ _)⟩

/-- Applying a step keeps every parameter within its bounds and changes neither
names, bounds nor flags. -/
theorem applyStep_within (params : List FitParameter) (h : ∀ p ∈ params, p.InBounds)
    (delta : List ℚ) :
    (∀ q ∈ applyStep params delta, q.InBounds) ∧
      (applyStep params delta).map FitParameter.frame = params.map FitParameter.frame := by
  induction params generalizing delta with
  | nil => simp [applyStep]
  | cons p ps ih =>
    have hp : p.InBounds := h p (List.mem_cons_self _ _)
    have hps : ∀ q ∈ ps, q.InBounds := fun q hq => h q (List.mem_cons_of_mem _ hq)
    have hle : p.lowerBound ≤ p.upperBound := le_trans hp.1 hp.2
    unfold applyStep
    split
    · cases delta with
      | nil =>
        obtain ⟨h1, h2⟩ := ih hps []
        refine ⟨?_, ?_⟩
        · intro q hq
          rcases List.mem_cons.1 hq with rfl | hq
          · exact clamp_mem _ _ _ hle
          · exact h1 q hq
        · simp only [List.map_cons, h2]
          rfl
      | cons d ds =>
        obtain ⟨h1, h2⟩ := ih hps ds
        refine ⟨?_, ?_⟩
        · intro q hq
          rcases List.mem_cons.1 hq with rfl | hq
          · exact clamp_mem _ _ _ hle
          · exact h1 q hq
        · simp only [List.map_cons, h2]
          rfl
    · obtain ⟨h1, h2⟩ := ih hps delta
      refine ⟨?_, ?_⟩
      · intro q hq
        rcases List.mem_cons.1 hq with rfl | hq
        · exact hp
        · exact h1 q hq
      · simp only [List.map_cons, h2]

/-- An accepted candidate is the current parameter list with some step applied. -/
theorem tryStep_accepted_applyStep (ctx : FitContext) (modelType : Nat) (weight : ℚ)
    (cols : List (List ℚ)) (residuals : List ℚ) (params : List FitParameter) (sse : ℚ)
    (n : Nat) (lam : ℚ) (cand : List FitParameter) (sseNew lamNew stepSq : ℚ)
    (h : tryStep ctx modelType weight cols residuals params sse n lam
      = StepOutcome.accepted cand sseNew lamNew stepSq) :
    ∃ delta, cand = applyStep params delta := by
  induction n generalizing lam with
  | zero => simp [tryStep] at h
  | succ n ih =>
    simp only [tryStep] at h
    split at h
    · exact ih _ h
    · rename_i delta _
      split at h
      · cases h
        exact ⟨delta, rfl⟩
      · exact ih _ h

/-- C4: from a starting point inside the bounds, every step the optimizer applies
is hard-clamped: whatever the step, each parameter of the candidate lies in
`[lowerBound, upperBound]` of that parameter (names, bounds and flags untouched);
so do the parameters carried by every iteration event and the parameters of the
result of the run. -/
theorem step_clamped_within_bounds (params : List FitParameter)
    (hstart : ∀ p ∈ params, p.InBounds) :
    (∀ delta : List ℚ, WithinBoundsOf params (applyStep params delta)) ∧
    (∀ (ctx : FitContext) (stop : Nat → Bool) (modelType : Nat) (weight : ℚ),
      WithinBoundsOf params
          (runLevenbergMarquardtOptimization ctx stop modelType params weight).1.parameters ∧
        ∀ e ∈ (runLevenbergMarquardtOptimization ctx stop modelType params weight).2,
          ∃ ps, WithinBoundsOf params ps ∧ e.currentParams = toParamMap ps) := by
  refine ⟨fun delta => applyStep_within params hstart delta, ?_⟩
  intro ctx stop modelType weight
  obtain ⟨st1, reason, hq, heq⟩ := lmLoop_invariant ctx modelType weight stop
    (fun st => WithinBoundsOf params st.params ∧
      ∀ e ∈ st.events, ∃ ps, WithinBoundsOf params ps ∧ e.currentParams = toParamMap ps) (by
      intro st cand sseNew lamNew stepSq hQ _ hacc
      obtain ⟨delta, rfl⟩ := tryStep_accepted_applyStep _ _ _ _ _ _ _ _ _ _ _ _ _ hacc
      obtain ⟨h1, h2⟩ := applyStep_within st.params hQ.1.1 delta
      have hw : WithinBoundsOf params (applyStep st.params delta) := ⟨h1, h2.trans hQ.1.2⟩
      refine ⟨hw, ?_⟩
      intro e he
      rcases List.mem_append.1 he with he | he
      · exact hQ.2 e he
      · rw [List.mem_singleton] at he
        subst he
        exact ⟨_, hw, rfl⟩)
    ctx.cfg.maxIterations
    { params := params, lam := ctx.cfg.lambda0, iter := 0, events := [] }
    ⟨⟨hstart, rfl⟩, by simp⟩
  unfold runLevenbergMarquardtOptimization
  rw [heq]
  exact hq

/-- C4 at a concrete input: the sample parameter starts inside `[0, 10]`. -/
theorem step_clamped_within_bounds_witness :
    (∀ p ∈ sampleParams, p.InBounds) ∧
    (∀ delta : List ℚ, WithinBoundsOf sampleParams (applyStep sampleParams delta)) ∧
    (∀ (ctx : FitContext) (stop : Nat → Bool) (modelType : Nat) (weight : ℚ),
      WithinBoundsOf sampleParams
          (runLevenbergMarquardtOptimization ctx stop modelType sampleParams weight).1.parameters ∧
        ∀ e ∈ (runLevenbergMarquardtOptimization ctx stop modelType sampleParams weight).2,
          ∃ ps, WithinBoundsOf sampleParams ps ∧ e.currentParams = toParamMap ps) :=
  have h : ∀ p ∈ sampleParams, p.InBounds := by
    intro p hp
    simp only [sampleParams, List.mem_singleton] at hp
    subst hp
    exact ⟨by norm_num, by norm_num⟩
  ⟨h, step_clamped_within_bounds sampleParams h⟩

/-- The left neighbour of an inner point lies strictly before it. -/
theorem findLeftIndex_lt {K : Type} [LinearOrderedField K] (x : List K) (i : Nat) (L : K)
    (hi : 0 < i) : findLeftIndex x i L < i := by
  unfold findLeftIndex
  cases h : (List.range i).reverse.find? fun j => decide (L ≤ x.getD i 0 - x.getD j 0) with
  | none => simpa using hi
  | some j =>
    have hm := List.mem_of_find?_eq_some h
    simpa using hm

/-- The right neighbour of a point that is not the last lies strictly after it, inside
the series. -/
theorem findRightIndex_bounds {K : Type} [LinearOrderedField K] (x : List K) (i : Nat) (L : K)
    (hi : i + 1 < x.length) :
    i < findRightIndex x i L ∧ findRightIndex x i L < x.length := by
  unfold findRightIndex
  cases h : (List.range' (i + 1) (x.length - (i + 1))).find? fun j =>
      decide (L ≤ x.getD j 0 - x.getD i 0) with
  | none =>
    simp only [Option.getD_none]
    omega
  | some j =>
    have hm := List.mem_of_find?_eq_some h
    simp only [List.mem_range'_1] at hm
    simp only [Option.getD_some]
    omega

/-- The weighted combination of two equal slopes is that slope. -/
theorem bourdetAt_of_linear {K : Type} [LinearOrderedField K] (x p : List K) (L a b : K)
    (i : Nat) (hi0 : 0 < i) (hi1 : i + 1 < x.length)
    (hx : ∀ j k, j < k → k < x.length → x.getD j 0 < x.getD k 0)
    (hp : ∀ j, j < x.length → p.getD j 0 = a + b * x.getD j 0) :
    bourdetAt x p L i = b := by
  have hl := findLeftIndex_lt x i L hi0
  obtain ⟨hr0, hr1⟩ := findRightIndex_bounds x i L hi1
  have hil : i < x.length := by omega
  have hdL : 0 < x.getD i 0 - x.getD (findLeftIndex x i L) 0 :=
    sub_pos.2 (hx _ _ hl hil)
  have hdR : 0 < x.getD (findRightIndex x i L) 0 - x.getD i 0 :=
    sub_pos.2 (hx _ _ hr0 hr1)
  unfold bourdetAt
  simp only
  rw [if_neg (by omega), if_neg (by omega)]
  rw [hp i hil, hp _ (by omega : findLeftIndex x i L < x.length), hp _ hr1]
  generalize x.getD i 0 = xi at hdL hdR ⊢
  generalize x.getD (findLeftIndex x i L) 0 = xl at hdL ⊢
  generalize x.getD (findRightIndex x i L) 0 = xr at hdR ⊢
  have h1 : xi - xl ≠ 0 := ne_of_gt hdL
  have h2 : xr - xi ≠ 0 := ne_of_gt hdR
  have h3 : xi - xl + (xr - xi) ≠ 0 := ne_of_gt (add_pos hdL hdR)
  have e1 : (a + b * xi - (a + b * xl)) / (xi - xl) = b := by
    rw [show a + b * xi - (a + b * xl) = b * (xi - xl) by ring, mul_div_assoc, div_self h1,
      mul_one]
  have e2 : (a + b * xr - (a + b * xi)) / (xr - xi) = b := by
    rw [show a + b * xr - (a + b * xi) = b * (xr - xi) by ring, mul_div_assoc, div_self h2,
      mul_one]
  rw [e1, e2, div_eq_iff h3]
  ring

/-- C2: for a strictly increasing series of positive times, every `a`, `b` and every
spacing `L`, the Bourdet derivative of the pressure series `p_i = a + b·ln(t_i)` is
`b` at every interior index (an interior index exists only with three points or
more). The logarithm enters as any function that is strictly increasing on the
positive numbers. -/
theorem bourdet_of_log_linear {K : Type} [LinearOrderedField K] (ln : K → K)
    (hln : ∀ s t : K, 0 < s → s < t → ln s < ln t)
    (time : List K) (hpos : ∀ t ∈ time, 0 < t) (hinc : time.Pairwise (fun s t => s < t))
    (a b L : K) (i : Nat) (hi0 : 0 < i) (hi1 : i + 1 < time.length) :
    (calculateBourdetDerivative ln time (time.map fun t => a + b * ln t) L)[i]? = some b := by
  have hx : ∀ j k, j < k → k < (time.map ln).length →
      (time.map ln).getD j 0 < (time.map ln).getD k 0 := by
    intro j k hjk hk
    rw [List.length_map] at hk
    have hj : j < time.length := by omega
    rw [List.getD_eq_getElem _ _ (by simpa using hj), List.getD_eq_getElem _ _ (by simpa using hk)]
    simp only [List.getElem_map]
    exact hln _ _ (hpos _ (List.getElem_mem _)) (List.pairwise_iff_getElem.1 hinc j k hj hk hjk)
  have hp : ∀ j, j < (time.map ln).length →
      (time.map fun t => a + b * ln t).getD j 0 = a + b * (time.map ln).getD j 0 := by
    intro j hj
    rw [List.length_map] at hj
    rw [List.getD_eq_getElem _ _ (by simpa using hj), List.getD_eq_getElem _ _ (by simpa using hj)]
    simp only [List.getElem_map]
  unfold calculateBourdetDerivative
  rw [if_neg (by omega)]
  rw [List.getElem?_map, List.getElem?_range (by omega)]
  simp only [Option.map_some', Option.some.injEq]
  exact bourdetAt_of_linear _ _ L a b i hi0 (by simpa using hi1) hx hp

/-- C2 at a concrete input: the series `ln t` observed at `t = 1, 2, 3` over the
real numbers, with the real logarithm. -/
theorem bourdet_of_log_linear_witness :
    (calculateBourdetDerivative Real.log [1, 2, 3]
      ([1, 2, 3].map fun t : ℝ => 0 + 1 * Real.log t) (1 / 10))[1]? = some 1 :=
  bourdet_of_log_linear Real.log (fun _ _ hs hst => Real.log_lt_log hs hst) [1, 2, 3]
    (by intro t ht; simp at ht; rcases ht with rfl | rfl | rfl <;> norm_num)
    (by simp; norm_num) 0 1 (1 / 10) 1 (by decide) (by simp)

/-- A window of half-width zero holds the point alone. -/
theorem windowAverage_zero (d : List ℚ) (i : Nat) (hi : i < d.length) :
    windowAverage d i 0 = d[i] := by
  have hmin : min i (d.length - 1) = i := min_eq_left (by omega)
  unfold windowAverage
  simp only [Nat.sub_zero, Nat.add_zero, hmin, Nat.sub_self, Nat.zero_add]
  rw [List.drop_eq_getElem_cons hi, List.take_succ_cons, List.take_zero]
  simp

/-- C3: `smoothData(d, 1)` is `d` itself, already by the averaging (the window of
factor one holds each point alone); and for every smoothing factor, in particular
every factor of at least one, the smoothed array is as long as `d`. -/
theorem smoothData_one_and_length (d : List ℚ) (factor : Int) :
    smoothData d 1 = d ∧
      (List.range d.length).map (fun i => windowAverage d i ((1 : Int).toNat / 2)) = d ∧
      (smoothData d factor).length = d.length := by
  refine ⟨by simp [smoothData], ?_, ?_⟩
  · apply List.ext_getElem
    · simp
    · intro i h1 h2
      simp only [List.getElem_map, List.getElem_range]
      exact windowAverage_zero d i h2
  · unfold smoothData
    split
    · rfl
    · simp

/-! ## Properties of the sensitivity-value parser -/

/-- The loop of the parser, started from any values already collected. -/
theorem parse_foldl (toDouble : List Char → Option ℚ) (tokens : List (List Char))
    (acc : List ℚ) :
    tokens.foldl
        (fun values token =>
          match toDouble token with
          | some v => values ++ [v]
          | none => values)
        acc
      = acc ++ tokens.filterMap toDouble := by
  induction tokens generalizing acc with
  | nil => simp
  | cons tok toks ih =>
    simp only [List.foldl_cons, List.filterMap_cons]
    cases h : toDouble tok with
    | none => simp [ih]
    | some v => simp [ih]

/-- The tokens are never an empty list. -/
theorem splitTokens_ne_nil (sep : Char) (text : List Char) : splitTokens sep text ≠ [] := by
  cases text with
  | nil => simp [splitTokens]
  | cons c cs =>
    unfold splitTokens
    split
    · simp
    · split <;> simp

/-- The tokens are the pieces of the text between the delimiters: none holds the
delimiter, and joined by it they give the text back. -/
theorem splitTokens_spec (sep : Char) (text : List Char) :
    (∀ tok ∈ splitTokens sep text, sep ∉ tok) ∧
      List.intercalate [sep] (splitTokens sep text) = text := by
  induction text with
  | nil => simp [splitTokens, List.intercalate]
  | cons c cs ih =>
    obtain ⟨ih1, ih2⟩ := ih
    unfold splitTokens
    split
    · rename_i hc
      subst hc
      refine ⟨?_, ?_⟩
      · intro tok htok
        rcases List.mem_cons.1 htok with rfl | htok
        · simp
        · exact ih1 tok htok
      · cases hs : splitTokens c cs with
        | nil => exact absurd hs (splitTokens_ne_nil _ _)
        | cons t ts =>
          rw [hs] at ih2
          rw [← ih2]
          simp [List.intercalate, List.intersperse]
    · rename_i hc
      cases hs : splitTokens sep cs with
      | nil => exact absurd hs (splitTokens_ne_nil _ _)
      | cons t ts =>
        rw [hs] at ih1 ih2
        simp only
        refine ⟨?_, ?_⟩
        · intro tok htok
          rcases List.mem_cons.1 htok with rfl | htok
          · intro hmem
            rcases List.mem_cons.1 hmem with h | h
            · exact hc h.symm
            · exact ih1 t (List.mem_cons_self _ _) h
          · exact ih1 tok (List.mem_cons_of_mem _ htok)
        · rw [← ih2]
          cases ts <;> simp [List.intercalate, List.intersperse]

/-- C6: `parseSensitivityValues` is total, and for every text its result is, in
the original order, exactly the values of the comma-separated tokens that convert
to a number, every other token being skipped; the tokens are the pieces of the
text between the commas. -/
theorem parseSensitivityValues_skips_malformed (toDouble : List Char → Option ℚ)
    (text : List Char) :
    parseSensitivityValues toDouble text = (splitTokens ',' text).filterMap toDouble ∧
      (∀ tok ∈ splitTokens ',' text, ',' ∉ tok) ∧
      List.intercalate [','] (splitTokens ',' text) = text := by
  refine ⟨?_, splitTokens_spec ',' text⟩
  unfold parseSensitivityValues
  rw [parse_foldl]
  simp

/-! ## Properties of the input of the derivative -/

/-- One pass of the row loop appends the contribution of the row, if any. -/
theorem derivativeRow_eq (toDouble : List Char → ℚ) (model : QStandardItemModel)
    (xCol yCol : Int) (testType : Int) (initialPressure : ℚ) (data : List ℚ × List ℚ)
    (i : Nat) :
    derivativeRow toDouble model xCol yCol testType initialPressure
        (shutInPressure toDouble model yCol) data i
      = match keptRow toDouble model xCol yCol testType initialPressure i with
        | some tp => (data.1 ++ [tp.1], data.2 ++ [tp.2])
        | none => data := by
  unfold derivativeRow keptRow
  cases model.item i xCol with
  | none => rfl
  | some textX =>
    cases model.item i yCol with
    | none => rfl
    | some textY =>
      simp only
      split <;> rfl

/-- The row loop appends, to whatever was collected, the contributions of the
rows it visits. -/
theorem derivativeRow_foldl (toDouble : List Char → ℚ) (model : QStandardItemModel)
    (xCol yCol : Int) (testType : Int) (initialPressure : ℚ) (rows : List Nat)
    (data : List ℚ × List ℚ) :
    rows.foldl
        (derivativeRow toDouble model xCol yCol testType initialPressure
          (shutInPressure toDouble model yCol))
        data
      = (data.1 ++ (rows.filterMap
            (keptRow toDouble model xCol yCol testType initialPressure)).map Prod.fst,
          data.2 ++ (rows.filterMap
            (keptRow toDouble model xCol yCol testType initialPressure)).map Prod.snd) := by
  induction rows generalizing data with
  | nil => simp
  | cons i rows ih =>
    rw [List.foldl_cons, ih, derivativeRow_eq, List.filterMap_cons]
    cases keptRow toDouble model xCol yCol testType initialPressure i with
    | none => rfl
    | some tp => simp

/-- The two arrays are the two components of the kept rows. -/
theorem on_btn_Derivative_clicked_eq (toDouble : List Char → ℚ)
    (source : Option QStandardItemModel) (xCol yCol : Int) (testType : Int)
    (initialPressure : ℚ) :
    on_btn_Derivative_clicked toDouble source xCol yCol testType initialPressure =
      ((keptRows toDouble source xCol yCol testType initialPressure).map Prod.fst,
        (keptRows toDouble source xCol yCol testType initialPressure).map Prod.snd) := by
  cases source with
  | none => rfl
  | some model =>
    simp only [on_btn_Derivative_clicked, keptRows]
    rw [derivativeRow_foldl]
    simp

/-- A kept row has a positive time and a positive pressure difference. -/
theorem keptRow_pos (toDouble : List Char → ℚ) (model : QStandardItemModel)
    (xCol yCol : Int) (testType : Int) (initialPressure : ℚ) (i : Nat) (tp : ℚ × ℚ)
    (h : keptRow toDouble model xCol yCol testType initialPressure i = some tp) :
    0 < tp.1 ∧ 0 < tp.2 := by
  unfold keptRow at h
  split at h
  · simp only at h
    split at h
    · rename_i hpos
      cases h
      exact hpos
    · cases h
  · cases h

/-- C8: for every table, column choice, test type and initial pressure, the time
array and the pressure-difference array built by `on_btn_Derivative_clicked` for
`calculateBourdetDerivative` have equal length, every time is positive and every
pressure difference is positive; they hold exactly the rows whose two cells exist
and whose time and pressure difference are both positive, in table order. -/
theorem derivative_input_positive (toDouble : List Char → ℚ)
    (source : Option QStandardItemModel) (xCol yCol : Int) (testType : Int)
    (initialPressure : ℚ) :
    (on_btn_Derivative_clicked toDouble source xCol yCol testType initialPressure).1.length =
      (on_btn_Derivative_clicked toDouble source xCol yCol testType initialPressure).2.length ∧
    (∀ t ∈ (on_btn_Derivative_clicked toDouble source xCol yCol testType initialPressure).1,
      0 < t) ∧
    (∀ dp ∈ (on_btn_Derivative_clicked toDouble source xCol yCol testType initialPressure).2,
      0 < dp) ∧
    on_btn_Derivative_clicked toDouble source xCol yCol testType initialPressure =
      ((keptRows toDouble source xCol yCol testType initialPressure).map Prod.fst,
        (keptRows toDouble source xCol yCol testType initialPressure).map Prod.snd) := by
  have hpos : ∀ tp ∈ keptRows toDouble source xCol yCol testType initialPressure,
      0 < tp.1 ∧ 0 < tp.2 := by
    intro tp htp
    cases source with
    | none => simp [keptRows] at htp
    | some model =>
      simp only [keptRows, List.mem_filterMap] at htp
      obtain ⟨i, _, hi⟩ := htp
      exact keptRow_pos _ _ _ _ _ _ _ _ hi
  rw [on_btn_Derivative_clicked_eq]
  refine ⟨by simp, ?_, ?_, rfl⟩
  · intro t ht
    obtain ⟨tp, htp, rfl⟩ := List.mem_map.1 ht
    exact (hpos tp htp).1
  · intro dp hdp
    obtain ⟨tp, htp, rfl⟩ := List.mem_map.1 hdp
    exact (hpos tp htp).2

/-- The digit character of a number below ten reads back as that number. -/
theorem digitChar_value (d : Nat) (hd : d < 10) : (Nat.digitChar d).toNat - '0'.toNat = d := by
  interval_cases d <;> rfl

/-- Reading a text with a trailing text appended. -/
theorem readDecimal_append (xs ys : List Char) :
    readDecimal (xs ++ ys) =
      ys.foldl (fun n c => 10 * n + (c.toNat - '0'.toNat)) (readDecimal xs) := by
  simp [readDecimal, List.foldl_append]

/-- The digits produced with an accumulator are the digits produced without it,
followed by the accumulator. -/
theorem toDigitsCore_append (fuel n : Nat) (ds : List Char) :
    Nat.toDigitsCore 10 fuel n ds = Nat.toDigitsCore 10 fuel n [] ++ ds := by
  induction fuel generalizing n ds with
  | zero => simp [Nat.toDigitsCore]
  | succ fuel ih =>
    simp only [Nat.toDigitsCore]
    split
    · simp
    · rw [ih (n / 10) (Nat.digitChar (n % 10) :: ds), ih (n / 10) [Nat.digitChar (n % 10)]]
      simp

/-- The digits of a number read back as the number. -/
theorem readDecimal_toDigitsCore (fuel n : Nat) (h : n < fuel) :
    readDecimal (Nat.toDigitsCore 10 fuel n []) = n := by
  induction fuel generalizing n with
  | zero => omega
  | succ fuel ih =>
    simp only [Nat.toDigitsCore]
    split
    · rename_i h0
      have hn : n < 10 := by
        by_contra hc
        have : 0 < n / 10 := Nat.div_pos (by omega) (by omega)
        omega
      simp only [readDecimal, List.foldl_cons, List.foldl_nil, Nat.mul_zero, Nat.zero_add]
      rw [digitChar_value _ (Nat.mod_lt _ (by omega))]
      exact Nat.mod_eq_of_lt hn
    · rename_i h0
      have hlt : n / 10 < fuel := by
        have : n / 10 < n := Nat.div_lt_self (by
          by_contra hc
          have : n = 0 := by omega
          subst this
          simp at h0) (by omega)
        omega
      rw [toDigitsCore_append, readDecimal_append, ih _ hlt]
      simp only [List.foldl_cons, List.foldl_nil]
      rw [digitChar_value _ (Nat.mod_lt _ (by omega))]
      omega

/-- Different counters have different decimal texts. -/
theorem toDigits_injective : Function.Injective (Nat.toDigits 10) := by
  intro m n h
  have hm := readDecimal_toDigitsCore (m + 1) m (by omega)
  have hn := readDecimal_toDigitsCore (n + 1) n (by omega)
  unfold Nat.toDigits at h
  rw [h] at hm
  omega

/-- Over a text without `%` the scan yields plain characters only. -/
theorem tokenizeAux_plain (base rest : List Char) (hbase : '%' ∉ base) (fuel : Nat) :
    tokenizeAux (base.length + fuel) (base ++ rest) =
      base.map ArgToken.lit ++ tokenizeAux fuel rest := by
  induction base with
  | nil => simp
  | cons c cs ih =>
    have hc : c ≠ '%' := fun h => hbase (h ▸ List.mem_cons_self _ _)
    have hcs : '%' ∉ cs := fun h => hbase (List.mem_cons_of_mem _ h)
    have hlen : (c :: cs).length + fuel = (cs.length + fuel) + 1 := by
      simp only [List.length_cons]
      omega
    rw [hlen, List.cons_append]
    simp only [tokenizeAux, if_neg hc, ih hcs, List.map_cons, List.cons_append]

/-- Plain characters in front do not change the lowest marker number. -/
theorem minEscape_plain (base : List Char) (ts : List ArgToken) :
    minEscape (base.map ArgToken.lit ++ ts) = minEscape ts := by
  induction base with
  | nil => rfl
  | cons c cs ih => simpa [minEscape] using ih

/-- Plain characters in front are copied by the replacement. -/
theorem replaceEscapes_plain (a : List Char) (n : Nat) (base : List Char) (ts : List ArgToken) :
    replaceEscapes a n (base.map ArgToken.lit ++ ts) = base ++ replaceEscapes a n ts := by
  induction base with
  | nil => rfl
  | cons c cs ih => simpa [replaceEscapes] using ih

/-- For a base name without `%` the two `arg` calls give the base name, a blank
and the decimal counter. -/
theorem numberedName_plain (baseName : List Char) (hbase : '%' ∉ baseName) (counter : Nat) :
    numberedName baseName counter = baseName ++ ' ' :: Nat.toDigits 10 counter := by
  have h1 : arg ['%', '1', ' ', '%', '2'] baseName = baseName ++ [' ', '%', '2'] := by
    have ht : tokenize ['%', '1', ' ', '%', '2'] =
        [ArgToken.escape 1 false ['%', '1'], ArgToken.lit ' ',
          ArgToken.escape 2 false ['%', '2']] := by decide
    simp [arg, ht, minEscape, replaceEscapes]
  have h2 : tokenize (baseName ++ [' ', '%', '2']) =
      baseName.map ArgToken.lit ++
        [ArgToken.lit ' ', ArgToken.escape 2 false ['%', '2']] := by
    unfold tokenize
    rw [List.length_append, tokenizeAux_plain baseName _ hbase]
    have ht : tokenizeAux [' ', '%', '2'].length [' ', '%', '2'] =
        [ArgToken.lit ' ', ArgToken.escape 2 false ['%', '2']] := by decide
    rw [ht]
  unfold numberedName argInt
  rw [h1]
  unfold arg
  rw [h2, minEscape_plain]
  simp [minEscape, replaceEscapes_plain, replaceEscapes]

/-- The loop of `generateUniqueName` stops at the first counter whose name is no
tab text, provided the names of different counters differ and the fuel exceeds the
size of a set that holds every tab text still ahead. -/
theorem generateUniqueNameLoop_spec (tabTexts : List (List Char)) (baseName : List Char)
    (hinj : ∀ i j, 1 ≤ i → 1 ≤ j → nameAt baseName i = nameAt baseName j → i = j)
    (fuel : Nat) (c : Nat) (hc : 1 ≤ c) (ahead : Finset (List Char))
    (hahead : ∀ j, c ≤ j → nameAt baseName j ∈ tabTexts → nameAt baseName j ∈ ahead)
    (hfuel : ahead.card < fuel) :
    ∃ k, c ≤ k ∧
      generateUniqueNameLoop tabTexts baseName fuel (nameAt baseName c) c
        = some (nameAt baseName k) ∧
      nameAt baseName k ∉ tabTexts ∧
      ∀ j, c ≤ j → j < k → nameAt baseName j ∈ tabTexts := by
  induction fuel generalizing c ahead with
  | zero => omega
  | succ fuel ih =>
    unfold generateUniqueNameLoop
    by_cases hmem : nameAt baseName c ∈ tabTexts
    · have hany : (tabTexts.any fun text => text == nameAt baseName c) = true := by
        rw [List.any_eq_true]
        exact ⟨_, hmem, by simp⟩
      rw [if_pos hany]
      have hnext : numberedName baseName (c + 1) = nameAt baseName (c + 1) := by
        unfold nameAt
        rw [if_neg (by omega)]
      rw [hnext]
      have hin : nameAt baseName c ∈ ahead := hahead c (le_refl _) hmem
      have hcard : (ahead.erase (nameAt baseName c)).card < fuel := by
        rw [Finset.card_erase_of_mem hin]
        have := Finset.card_pos.2 ⟨_, hin⟩
        omega
      obtain ⟨k, hk, hres, hfresh, hused⟩ := ih (c + 1) (by omega)
        (ahead.erase (nameAt baseName c)) (by
          intro j hj hjm
          rw [Finset.mem_erase]
          refine ⟨?_, hahead j (by omega) hjm⟩
          intro heq
          have := hinj j c (by omega) hc heq
          omega) hcard
      refine ⟨k, by omega, hres, hfresh, ?_⟩
      intro j hj1 hj2
      by_cases hjc : j = c
      · subst hjc
        exact hmem
      · exact hused j (by omega) hj2
    · have hany : ¬ (tabTexts.any fun text => text == nameAt baseName c) = true := by
        rw [List.any_eq_true]
        rintro ⟨t, ht, hbeq⟩
        have : t = nameAt baseName c := by simpa using hbeq
        exact hmem (this ▸ ht)
      rw [if_neg hany]
      exact ⟨c, le_refl _, rfl, hmem, fun j h1 h2 => by omega⟩

/-- For a base name without `%` the names of different counters differ. -/
theorem nameAt_injective (baseName : List Char) (hbase : '%' ∉ baseName) (i j : Nat)
    (hi : 1 ≤ i) (hj : 1 ≤ j) (h : nameAt baseName i = nameAt baseName j) : i = j := by
  unfold nameAt at h
  by_cases hi1 : i ≤ 1
  · by_cases hj1 : j ≤ 1
    · omega
    · rw [if_pos hi1, if_neg hj1, numberedName_plain _ hbase] at h
      have := congrArg List.length h
      simp at this
  · by_cases hj1 : j ≤ 1
    · rw [if_neg hi1, if_pos hj1, numberedName_plain _ hbase] at h
      have := congrArg List.length h
      simp at this
    · rw [if_neg hi1, if_neg hj1, numberedName_plain _ hbase, numberedName_plain _ hbase] at h
      have h2 := List.append_cancel_left h
      simp only [List.cons.injEq, true_and] at h2
      exact toDigits_injective h2

/-- C10 fails as stated: with the single tab `%1f` and the base name `%1f` the
result is `2f %2`, which is neither the base name nor the base name followed by a
blank and a number. -/
theorem generateUniqueName_marker_in_base :
    generateUniqueName [['%', '1', 'f']] ['%', '1', 'f'] = some ['2', 'f', ' ', '%', '2'] ∧
    ¬ (['2', 'f', ' ', '%', '2'] = ['%', '1', 'f'] ∨
        ∃ k : Nat, ['2', 'f', ' ', '%', '2'] = ['%', '1', 'f'] ++ ' ' :: Nat.toDigits 10 k) := by
  refine ⟨by decide, ?_⟩
  rintro (h | ⟨k, h⟩)
  · exact absurd h (by decide)
  · simp only [List.cons_append, List.cons.injEq] at h
    exact absurd h.1 (by decide)

/-- C10, amended: for every list of tab texts and every base name without the
character `%`, `generateUniqueName` terminates and returns a text equal to no tab
text: the base name itself when it is unused, otherwise the base name, a blank and
the decimal `k` for the least `k ≥ 2` whose name is unused. -/
theorem generateUniqueName_unused (tabTexts : List (List Char)) (baseName : List Char)
    (hbase : '%' ∉ baseName) :
    ∃ name, generateUniqueName tabTexts baseName = some name ∧ name ∉ tabTexts ∧
      ((baseName ∉ tabTexts ∧ name = baseName) ∨
        (baseName ∈ tabTexts ∧ ∃ k, 2 ≤ k ∧
          name = baseName ++ ' ' :: Nat.toDigits 10 k ∧
          ∀ j, 2 ≤ j → j < k → (baseName ++ ' ' :: Nat.toDigits 10 j) ∈ tabTexts)) := by
  obtain ⟨k, hk, hres, hfresh, hused⟩ :=
    generateUniqueNameLoop_spec tabTexts baseName (nameAt_injective baseName hbase)
      (tabTexts.length + 1) 1 (le_refl _) tabTexts.toFinset
      (fun j _ hj => List.mem_toFinset.2 hj)
      (Nat.lt_succ_of_le (List.toFinset_card_le _))
  have h1 : nameAt baseName 1 = baseName := by simp [nameAt]
  rw [h1] at hres
  refine ⟨nameAt baseName k, hres, hfresh, ?_⟩
  by_cases hk1 : k = 1
  · subst hk1
    rw [h1] at hfresh ⊢
    exact Or.inl ⟨hfresh, rfl⟩
  · right
    have hk2 : 2 ≤ k := by omega
    have hname : ∀ j, 2 ≤ j → nameAt baseName j = baseName ++ ' ' :: Nat.toDigits 10 j := by
      intro j hj
      unfold nameAt
      rw [if_neg (by omega), numberedName_plain _ hbase]
    refine ⟨?_, k, hk2, hname k hk2, ?_⟩
    · have := hused 1 (le_refl _) (by omega)
      rwa [h1] at this
    · intro j hj1 hj2
      rw [← hname j hj1]
      exact hused j (by omega) hj2

/-- C10, amended, at a concrete input: the base name `Analysis` has no `%`; with
the tabs `Analysis` and `Analysis 2` present some unused name is returned. -/
theorem generateUniqueName_unused_witness :
    '%' ∉ ['A', 'n', 'a', 'l', 'y', 's', 'i', 's'] ∧
    ∃ name,
      generateUniqueName
          [['A', 'n', 'a', 'l', 'y', 's', 'i', 's'],
            ['A', 'n', 'a', 'l', 'y', 's', 'i', 's', ' ', '2']]
          ['A', 'n', 'a', 'l', 'y', 's', 'i', 's'] = some name ∧
        name ∉ [['A', 'n', 'a', 'l', 'y', 's', 'i', 's'],
          ['A', 'n', 'a', 'l', 'y', 's', 'i', 's', ' ', '2']] :=
  have h : '%' ∉ ['A', 'n', 'a', 'l', 'y', 's', 'i', 's'] := by decide
  ⟨h, (generateUniqueName_unused _ _ h).imp fun _ hn => ⟨hn.1, hn.2.1⟩⟩

/-! ## The definitions at work on concrete data -/

/-- The sample fit, never cancelled, accepts five iterations, one event each, and
ends converged. -/
theorem sample_run_converges :
    (runLevenbergMarquardtOptimization sampleContext (fun _ => false) 0 sampleParams 1).2.length
        = 5 ∧
      (runLevenbergMarquardtOptimization sampleContext (fun _ => false) 0
        sampleParams 1).1.stoppedReason = StopReason.Converged := by
  constructor <;> decide!

/-- The sample fit whose third check finds the stop flag set ends `Cancelled` after
two accepted iterations, with two iteration events. -/
theorem sample_run_cancelled :
    (runLevenbergMarquardtOptimization sampleContext (fun i => decide (2 ≤ i)) 0
        sampleParams 1).2.length = 2 ∧
      (runLevenbergMarquardtOptimization sampleContext (fun i => decide (2 ≤ i)) 0
        sampleParams 1).1.stoppedReason = StopReason.Cancelled ∧
      (runLevenbergMarquardtOptimization sampleContext (fun i => decide (2 ≤ i)) 0
        sampleParams 1).1.iterationCount = 2 := by
  refine ⟨?_, ?_, ?_⟩ <;> decide!

/-- The residuals of the sample fit at `a = 1` with weight two. -/
theorem sample_residuals :
    calculateResiduals sampleContext.mgr sampleContext.obs [("a", 1)] 0 2
      = [-3, -6, -9, 0, 0, 0] := by
  decide!

/-- The derivative of `p = 1 + 2x` over the log-times `x = 1, 2, 4, 7` (the
logarithm replaced by the identity) with spacing one, and of a series that is not
linear. -/
theorem sample_bourdet :
    calculateBourdetDerivative (fun x : ℚ => x) [1, 2, 4, 7] [3, 5, 9, 15] 1 = [2, 2, 2, 2] ∧
      calculateBourdetDerivative (fun x : ℚ => x) [1, 2, 4, 7] [1, 4, 16, 49] 1
        = [3, 4, 8, 11] := by
  constructor <;> decide!

/-- Smoothing with factor three averages each value with its two neighbours. -/
theorem sample_smooth : smoothData [1, 2, 6, 10] 3 = [3 / 2, 3, 6, 8] := by
  decide!

/-- The comma separated text `1,x,,2` holds four tokens, two of which convert. -/
theorem sample_parse :
    parseSensitivityValues
        (fun tok => if tok ≠ [] ∧ tok.all Char.isDigit then some (digitsToDouble tok) else none)
        ['1', ',', 'x', ',', ',', '2']
      = [1, 2] := by
  decide!

/-- With the tabs `Analysis` and `Analysis 2` the next name is `Analysis 3`. -/
theorem sample_unique_name :
    generateUniqueName
        [['A', 'n', 'a', 'l', 'y', 's', 'i', 's'],
          ['A', 'n', 'a', 'l', 'y', 's', 'i', 's', ' ', '2']]
        ['A', 'n', 'a', 'l', 'y', 's', 'i', 's']
      = some ['A', 'n', 'a', 'l', 'y', 's', 'i', 's', ' ', '3'] := by
  decide

/-! ## Properties of the fitting page -/

/-- C11: `on_btnDeleteAnalysis_clicked` never leaves the page without an analysis
tab: from a state with `n ≥ 1` tabs the count afterwards is `n` or `n - 1` and at
least one, and with a single tab the page is left as it is whatever the answer. -/
theorem delete_keeps_a_tab {W : Type} (answerYes : Bool) (page : FittingPage W)
    (hn : 1 ≤ page.tabs.length) :
    ((on_btnDeleteAnalysis_clicked answerYes page).tabs.length = page.tabs.length ∨
      (on_btnDeleteAnalysis_clicked answerYes page).tabs.length = page.tabs.length - 1) ∧
    1 ≤ (on_btnDeleteAnalysis_clicked answerYes page).tabs.length ∧
    (page.tabs.length = 1 → on_btnDeleteAnalysis_clicked answerYes page = page) := by
  unfold on_btnDeleteAnalysis_clicked
  split
  · exact ⟨Or.inl rfl, hn, fun _ => rfl⟩
  · split
    · exact ⟨Or.inl rfl, hn, fun _ => rfl⟩
    · rename_i h1
      split
      · refine ⟨?_, ?_, fun h => absurd h h1⟩
        · simp only [List.length_eraseIdx]
          split
          · exact Or.inr rfl
          · exact Or.inl rfl
        · simp only [List.length_eraseIdx]
          split <;> omega
      · exact ⟨Or.inl rfl, hn, fun _ => rfl⟩

/-- C11 at concrete inputs: two tabs of which the second is current and deleted, and
a single tab. -/
theorem delete_keeps_a_tab_witness :
    (on_btnDeleteAnalysis_clicked true
        ({ tabs := [(analysisOne, 0), (analysisOne, 1)], currentIndex := 1 } :
          FittingPage Nat)).tabs = [(analysisOne, 0)] ∧
      1 ≤ (on_btnDeleteAnalysis_clicked true
        ({ tabs := [(analysisOne, 0), (analysisOne, 1)], currentIndex := 1 } :
          FittingPage Nat)).tabs.length ∧
      1 ≤ (on_btnDeleteAnalysis_clicked true
        ({ tabs := [(analysisOne, 7)], currentIndex := 0 } : FittingPage Nat)).tabs.length :=
  ⟨by decide,
    (delete_keeps_a_tab true
      ({ tabs := [(analysisOne, 0), (analysisOne, 1)], currentIndex := 1 } : FittingPage Nat)
      (by decide)).2.1,
    (delete_keeps_a_tab true
      ({ tabs := [(analysisOne, 7)], currentIndex := 0 } : FittingPage Nat) (by decide)).2.1⟩

/-- Creating a tab appends exactly one tab. -/
theorem createNewTab_tabs {W : Type} (newWidget : Option QJsonObject → W) (name : List Char)
    (initData : QJsonObject) (page : FittingPage W) :
    (createNewTab newWidget name initData page).tabs =
      page.tabs ++ [(name, newWidget (if initData.isEmpty then none else some initData))] :=
  rfl

/-- The loop over the saved analyses appends one tab per analysis. -/
theorem loadAnalyses_length {W : Type} (newWidget : Option QJsonObject → W)
    (items : List QJsonValue) (i : Nat) (page : FittingPage W) :
    (loadAnalyses newWidget items i page).tabs.length = page.tabs.length + items.length := by
  induction items generalizing i page with
  | nil => simp [loadAnalyses]
  | cons v rest ih =>
    simp only [loadAnalyses, ih, createNewTab_tabs, List.length_append, List.length_cons,
      List.length_nil]
    omega

/-- C12: after `loadAllFittingStates` the page has at least one analysis tab, for
every stored object: empty, with an `analyses` array of any length, or in the
legacy single-state form. -/
theorem load_leaves_a_tab {W : Type} (newWidget : Option QJsonObject → W) (root : QJsonObject)
    (page : FittingPage W) :
    1 ≤ (loadAllFittingStates newWidget root page).tabs.length := by
  have key : ∀ p : FittingPage W,
      1 ≤ (if p.tabs.length = 0 then createNewTab newWidget analysisOne [] p else p).tabs.length := by
    intro p
    split
    · simp [createNewTab_tabs]
    · omega
  unfold loadAllFittingStates
  split
  · exact key page
  · exact key _

/-- The state saved for a tab: what its widget returns from `getJsonState`, with
the text of the tab stored under `_tabName`. -/
theorem saveAllFittingStates_eq {W : Type} (getJsonState : W → QJsonObject)
    (page : FittingPage W) :
    saveAllFittingStates getJsonState page =
      [(analysesKey, QJsonValue.array (page.tabs.map fun tab =>
          QJsonValue.object
            (QJsonObject.insert (getJsonState tab.2) tabNameKey (QJsonValue.string tab.1)))),
        (versionKey, QJsonValue.string ['2', '.', '0'])] := by
  have hfold : ∀ (tabs : List (List Char × W)) (acc : QJsonArray),
      tabs.foldl
          (fun arr tab =>
            arr ++ [QJsonValue.object
              (QJsonObject.insert (getJsonState tab.2) tabNameKey (QJsonValue.string tab.1))])
          acc
        = acc ++ tabs.map fun tab =>
            QJsonValue.object
              (QJsonObject.insert (getJsonState tab.2) tabNameKey (QJsonValue.string tab.1)) := by
    intro tabs
    induction tabs with
    | nil => simp
    | cons tab rest ih =>
      intro acc
      simp [ih]
  have hne : versionKey ≠ analysesKey := by decide
  simp only [saveAllFittingStates, hfold, List.nil_append]
  simp [QJsonObject.insert, hne]

/-- Loading saved pages appends, for each, a tab with the saved text whose widget
is initialised from the saved object. -/
theorem loadAnalyses_saved {W : Type} (newWidget : Option QJsonObject → W)
    (saved : List (List Char × QJsonObject)) (i : Nat) (page : FittingPage W) :
    (loadAnalyses newWidget
        (saved.map fun ts =>
          QJsonValue.object (QJsonObject.insert ts.2 tabNameKey (QJsonValue.string ts.1)))
        i page).tabs
      = page.tabs ++ saved.map fun ts =>
          (ts.1, newWidget
            (some (QJsonObject.insert ts.2 tabNameKey (QJsonValue.string ts.1)))) := by
  induction saved generalizing i page with
  | nil => simp [loadAnalyses]
  | cons ts rest ih =>
    simp only [List.map_cons, loadAnalyses, ih, createNewTab_tabs]
    simp [QJsonValue.toObject, QJsonObject.contains, QJsonObject.value, QJsonObject.insert,
      List.lookup, QJsonValue.toString]

/-- Dropping the members stored under one key does not change the lookup of
another key. -/
theorem lookup_filter_ne (members : QJsonObject) (key other : List Char) (h : key ≠ other) :
    List.lookup key (members.filter fun member => decide (member.1 ≠ other)) =
      List.lookup key members := by
  induction members with
  | nil => rfl
  | cons m rest ih =>
    obtain ⟨a, b⟩ := m
    by_cases ha : a = other
    · subst ha
      have hb : (key == a) = false := by simpa using h
      simpa [List.filter, List.lookup, hb] using ih
    · by_cases hk : key = a
      · subst hk
        simp [List.filter, ha, List.lookup]
      · have hb : (key == a) = false := by simpa using hk
        simpa [List.filter, ha, List.lookup, hb] using ih

/-- A key other than `_tabName` keeps its value when the tab text is stored. -/
theorem value_insert_tabName (state : QJsonObject) (text key : List Char)
    (hkey : key ≠ tabNameKey) :
    QJsonObject.value (QJsonObject.insert state tabNameKey (QJsonValue.string text)) key =
      QJsonObject.value state key := by
  have hbeq : (key == tabNameKey) = false := by simpa using hkey
  unfold QJsonObject.value QJsonObject.insert
  simp only [List.lookup, hbeq]
  rw [lookup_filter_ne _ _ _ hkey]

/-- C13: with at least one analysis tab and a project store that returns exactly
the object it was given, `saveAllFittingStates` followed by `loadAllFittingStates`
recreates as many tabs with the same texts in the same order, the widget of the
`i`-th tab being initialised from the state the `i`-th original widget returned
from `getJsonState` (with the tab text stored under `_tabName`, every other key
untouched). -/
theorem save_then_load_recreates_tabs {W : Type} (newWidget : Option QJsonObject → W)
    (getJsonState : W → QJsonObject) (page current : FittingPage W)
    (htabs : 1 ≤ page.tabs.length) :
    (loadAllFittingStates newWidget (saveAllFittingStates getJsonState page) current).tabs =
        page.tabs.map (fun tab =>
          (tab.1, newWidget (some
            (QJsonObject.insert (getJsonState tab.2) tabNameKey (QJsonValue.string tab.1))))) ∧
      (loadAllFittingStates newWidget (saveAllFittingStates getJsonState page) current).tabs.map
          Prod.fst = page.tabs.map Prod.fst ∧
      ∀ (tab : List Char × W) (key : List Char), key ≠ tabNameKey →
        QJsonObject.value
            (QJsonObject.insert (getJsonState tab.2) tabNameKey (QJsonValue.string tab.1)) key
          = QJsonObject.value (getJsonState tab.2) key := by
  have hmain :
      (loadAllFittingStates newWidget (saveAllFittingStates getJsonState page) current).tabs =
        page.tabs.map (fun tab =>
          (tab.1, newWidget (some
            (QJsonObject.insert (getJsonState tab.2) tabNameKey
              (QJsonValue.string tab.1))))) := by
    have hsaved := loadAnalyses_saved newWidget
      (page.tabs.map fun tab => (tab.1, getJsonState tab.2)) 0
      ({ tabs := [], currentIndex := -1 } : FittingPage W)
    simp only [List.map_map, List.nil_append] at hsaved
    rw [saveAllFittingStates_eq]
    unfold loadAllFittingStates
    simp only [List.isEmpty_cons, Bool.false_eq_true, if_false, QJsonObject.contains,
      QJsonObject.value, List.lookup, beq_self_eq_true, Option.isSome_some, Option.getD_some,
      QJsonValue.isArray, Bool.and_self, if_true, QJsonValue.toArray]
    have hcomp : (fun tab : List Char × W =>
        QJsonValue.object
          (QJsonObject.insert (getJsonState tab.2) tabNameKey (QJsonValue.string tab.1))) =
        ((fun ts : List Char × QJsonObject =>
          QJsonValue.object (QJsonObject.insert ts.2 tabNameKey (QJsonValue.string ts.1))) ∘
          fun tab : List Char × W => (tab.1, getJsonState tab.2)) := rfl
    rw [hcomp, hsaved]
    rw [if_neg (by
      simp only [List.length_map]
      omega)]
    exact hsaved
  refine ⟨hmain, ?_, fun tab key hkey => value_insert_tabName _ _ _ hkey⟩
  rw [hmain, List.map_map]
  rfl

/-- C13 at a concrete input: one tab `Analysis 1` whose widget holds the state it
was loaded from. -/
theorem save_then_load_recreates_tabs_witness :
    (loadAllFittingStates (fun init : Option QJsonObject => init)
        (saveAllFittingStates (fun w : Option QJsonObject => w.getD [])
          { tabs := [(analysisOne, none)], currentIndex := 0 })
        { tabs := [(analysisOne, none)], currentIndex := 0 }).tabs.map Prod.fst
      = [analysisOne] :=
  (save_then_load_recreates_tabs (fun init : Option QJsonObject => init)
    (fun w : Option QJsonObject => w.getD [])
    { tabs := [(analysisOne, none)], currentIndex := 0 }
    { tabs := [(analysisOne, none)], currentIndex := 0 } (by decide)).2.1

/-! ## Properties of saving and loading a data sheet -/

/-- The rows written by `serializeRows` are arrays of strings holding the cell
texts. -/
theorem serializeRows_eq (sheet : DataSingleSheet) :
    serializeRows sheet =
      (cellTexts sheet.m_dataModel).map fun row =>
        QJsonValue.array (row.map QJsonValue.string) := by
  unfold serializeRows cellTexts
  simp only [List.map_map]
  apply List.map_congr_left
  intro i _
  simp only [Function.comp, QJsonValue.array.injEq, List.map_map]
  apply List.map_congr_left
  intro j _
  simp only [Function.comp]
  cases sheet.m_dataModel.item i j <;> rfl

/-- Appending rows of texts: the row count grows by their number, the headers
stay, older rows stay, and the new rows hold the texts. -/
theorem deserializeRows_texts (rows : List (List (List Char))) (m : SheetItemModel) :
    (deserializeRows (rows.map fun row => QJsonValue.array (row.map QJsonValue.string)) m).rowCount
        = m.rowCount + rows.length ∧
    (deserializeRows (rows.map fun row => QJsonValue.array (row.map QJsonValue.string))
        m).headerData = m.headerData ∧
    (deserializeRows (rows.map fun row => QJsonValue.array (row.map QJsonValue.string))
        m).columnCount = rows.foldl (fun c row => max c row.length) m.columnCount ∧
    ∀ i j,
      (deserializeRows (rows.map fun row => QJsonValue.array (row.map QJsonValue.string))
          m).item i j =
        if i < m.rowCount then m.item i j
        else
          match rows.get? (i - m.rowCount) with
          | some row => row.get? j
          | none => m.item i j := by
  induction rows generalizing m with
  | nil =>
    refine ⟨rfl, rfl, rfl, ?_⟩
    intro i j
    simp [deserializeRows]
  | cons row rest ih =>
    have hrow : (QJsonValue.array (row.map QJsonValue.string)).toArray.map QJsonValue.toString
        = row := by
      simp only [QJsonValue.toArray, List.map_map]
      conv_rhs => rw [← List.map_id row]
      apply List.map_congr_left
      intro t _
      rfl
    obtain ⟨h1, h2, h3, h4⟩ := ih (m.appendRow row)
    simp only [deserializeRows, List.map_cons, List.foldl_cons, hrow] at h1 h2 h3 h4 ⊢
    refine ⟨?_, ?_, ?_, ?_⟩
    · rw [h1]
      simp only [SheetItemModel.appendRow, List.length_cons]
      omega
    · rw [h2]
      rfl
    · rw [h3]
      rfl
    · intro i j
      rw [h4]
      simp only [SheetItemModel.appendRow]
      by_cases hlt : i < m.rowCount
      · rw [if_pos (by omega), if_neg (by omega), if_pos hlt]
      · by_cases heq : i = m.rowCount
        · subst heq
          simp
        · rw [if_neg (by omega), if_neg hlt, if_neg heq]
          have hsub : i - m.rowCount = (i - (m.rowCount + 1)) + 1 := by omega
          rw [hsub, List.get?_cons_succ]

/-- The saved object of a sheet, member by member. -/
theorem saveToJson_eq (sheet : DataSingleSheet) :
    saveToJson sheet =
      [(dataKey, QJsonValue.array (serializeRows sheet)),
        (headersKey, QJsonValue.array
          ((List.range sheet.m_dataModel.columnCount).map fun i =>
            QJsonValue.string (sheet.m_dataModel.headerData i))),
        (filePathKey, QJsonValue.string sheet.m_filePath)] := by
  have h1 : filePathKey ≠ headersKey := by decide
  have h2 : filePathKey ≠ dataKey := by decide
  have h3 : headersKey ≠ dataKey := by decide
  simp [saveToJson, QJsonObject.insert, h1, h2, h3]

/-- Widening to the length of rows that are all as long as the model is wide
changes nothing. -/
theorem foldl_max_length (rows : List (List (List Char))) (c : Nat)
    (h : ∀ row ∈ rows, row.length = c) :
    rows.foldl (fun w row => max w row.length) c = c := by
  induction rows with
  | nil => rfl
  | cons row rest ih =>
    simp only [List.foldl_cons, h row (List.mem_cons_self _ _), max_self]
    exact ih fun r hr => h r (List.mem_cons_of_mem _ hr)

/-- C14: `serializeRows` yields `rowCount` arrays of exactly `columnCount` strings
each, a missing cell being written as the empty string; and `loadFromJson` applied
to the result of `saveToJson` restores the file path, the row and column counts,
the header labels and the text of every cell (missing cells as empty strings),
with one column definition per header, named after it. -/
theorem sheet_save_load_roundtrip (sheet previous : DataSingleSheet) :
    (serializeRows sheet).length = sheet.m_dataModel.rowCount ∧
    (∀ i, i < sheet.m_dataModel.rowCount →
      (serializeRows sheet)[i]? = some (QJsonValue.array
        ((List.range sheet.m_dataModel.columnCount).map fun j =>
          QJsonValue.string ((sheet.m_dataModel.item i j).getD []))) ∧
      ((List.range sheet.m_dataModel.columnCount).map fun j =>
          QJsonValue.string ((sheet.m_dataModel.item i j).getD [])).length
        = sheet.m_dataModel.columnCount) ∧
    (loadFromJson (saveToJson sheet) previous).m_filePath = sheet.m_filePath ∧
    (loadFromJson (saveToJson sheet) previous).m_dataModel.rowCount
      = sheet.m_dataModel.rowCount ∧
    (loadFromJson (saveToJson sheet) previous).m_dataModel.columnCount
      = sheet.m_dataModel.columnCount ∧
    (∀ j, j < sheet.m_dataModel.columnCount →
      (loadFromJson (saveToJson sheet) previous).m_dataModel.headerData j
        = sheet.m_dataModel.headerData j) ∧
    (∀ i j, i < sheet.m_dataModel.rowCount → j < sheet.m_dataModel.columnCount →
      (loadFromJson (saveToJson sheet) previous).m_dataModel.item i j
        = some ((sheet.m_dataModel.item i j).getD [])) ∧
    (loadFromJson (saveToJson sheet) previous).m_columnDefinitions =
      (List.range sheet.m_dataModel.columnCount).map fun j =>
        { name := sheet.m_dataModel.headerData j } := by
  have hk1 : (headersKey == dataKey) = false := by decide
  have hk2 : (filePathKey == dataKey) = false := by decide
  have hk3 : (filePathKey == headersKey) = false := by decide
  have hsl : ((List.range sheet.m_dataModel.columnCount).map fun i =>
        QJsonValue.string (sheet.m_dataModel.headerData i)).map QJsonValue.toString
      = (List.range sheet.m_dataModel.columnCount).map sheet.m_dataModel.headerData := by
    simp only [List.map_map]
    rfl
  have hlen : ∀ row ∈ cellTexts sheet.m_dataModel, row.length = sheet.m_dataModel.columnCount := by
    intro row hrow
    simp only [cellTexts, List.mem_map, List.mem_range] at hrow
    obtain ⟨i, _, rfl⟩ := hrow
    simp
  have hload : loadFromJson (saveToJson sheet) previous =
      { m_filePath := sheet.m_filePath
        m_dataModel :=
          deserializeRows
            ((cellTexts sheet.m_dataModel).map fun row =>
              QJsonValue.array (row.map QJsonValue.string))
            (SheetItemModel.clear.setHorizontalHeaderLabels
              ((List.range sheet.m_dataModel.columnCount).map sheet.m_dataModel.headerData))
        m_columnDefinitions :=
          ((List.range sheet.m_dataModel.columnCount).map sheet.m_dataModel.headerData).map
            fun s => { name := s } } := by
    rw [saveToJson_eq, serializeRows_eq]
    simp only [loadFromJson, QJsonObject.value, List.lookup, hk1, hk2, hk3, beq_self_eq_true,
      Option.getD_some, QJsonValue.toArray, QJsonValue.toString, hsl]
  have hc0 : (SheetItemModel.clear.setHorizontalHeaderLabels
      ((List.range sheet.m_dataModel.columnCount).map sheet.m_dataModel.headerData)).columnCount
      = sheet.m_dataModel.columnCount := by
    simp [SheetItemModel.setHorizontalHeaderLabels, SheetItemModel.clear]
  have hr0 : (SheetItemModel.clear.setHorizontalHeaderLabels
      ((List.range sheet.m_dataModel.columnCount).map sheet.m_dataModel.headerData)).rowCount
      = 0 := rfl
  have hh0 : ∀ j, j < sheet.m_dataModel.columnCount →
      (SheetItemModel.clear.setHorizontalHeaderLabels
        ((List.range sheet.m_dataModel.columnCount).map sheet.m_dataModel.headerData)).headerData j
      = sheet.m_dataModel.headerData j := by
    intro j hj
    simp only [SheetItemModel.setHorizontalHeaderLabels]
    rw [List.get?_eq_getElem?, List.getElem?_map, List.getElem?_range hj]
    rfl
  have hrows : (cellTexts sheet.m_dataModel).length = sheet.m_dataModel.rowCount := by
    simp [cellTexts]
  have hrow : ∀ i, i < sheet.m_dataModel.rowCount →
      (cellTexts sheet.m_dataModel).get? i =
        some ((List.range sheet.m_dataModel.columnCount).map fun j =>
          (sheet.m_dataModel.item i j).getD []) := by
    intro i hi
    simp only [cellTexts]
    rw [List.get?_eq_getElem?, List.getElem?_map, List.getElem?_range hi]
    rfl
  generalize SheetItemModel.clear.setHorizontalHeaderLabels
    ((List.range sheet.m_dataModel.columnCount).map sheet.m_dataModel.headerData) = m0
    at hload hc0 hr0 hh0
  obtain ⟨h1, h2, h3, h4⟩ := deserializeRows_texts (cellTexts sheet.m_dataModel) m0
  refine ⟨?_, ?_, ?_, ?_, ?_, ?_, ?_, ?_⟩
  · simp [serializeRows]
  · intro i hi
    refine ⟨?_, by simp⟩
    rw [serializeRows_eq]
    simp only [cellTexts, List.map_map]
    rw [List.getElem?_map, List.getElem?_range hi]
    simp [Function.comp]
  · rw [hload]
  · rw [hload]
    show (deserializeRows _ m0).rowCount = _
    rw [h1, hr0, hrows]
    omega
  · rw [hload]
    show (deserializeRows _ m0).columnCount = _
    rw [h3, hc0]
    exact foldl_max_length _ _ hlen
  · intro j hj
    rw [hload]
    show (deserializeRows _ m0).headerData j = _
    rw [h2]
    exact hh0 j hj
  · intro i j hi hj
    rw [hload]
    show (deserializeRows _ m0).item i j = _
    rw [h4, hr0, if_neg (Nat.not_lt_zero _), Nat.sub_zero, hrow i hi]
    simp only
    rw [List.get?_eq_getElem?, List.getElem?_map, List.getElem?_range hj]
    rfl
  · rw [hload]
    simp only [List.map_map]
    rfl

/-! ## Properties of the chart widget and of the event lines -/

/-- C17: in the step-chart branch of `drawStackedPlot`, for point lists `px`, `py`
of equal length with more than one point, the event lines requested are exactly,
for each index `i < size - 1` in increasing order, `addEventLine(px[i+1], 0)` when
`py[i] > 1e-9` and `py[i+1] <= 1e-9`, `addEventLine(px[i+1], 1)` when
`py[i] <= 1e-9` and `py[i+1] > 1e-9`, and none otherwise; lists of different
length or with at most one point request no event line. The `double` literal
`1e-9` of the comparisons is `rateThreshold`. -/
theorem stepEventLines_spec (px py : List ℚ) :
    stepEventLines px py =
      if px.length = py.length ∧ 1 < px.length then
        (List.range (px.length - 1)).filterMap (stepEventAt px py)
      else [] := by
  have hfold : ∀ (idx : List Nat) (acc : List (ℚ × Int)),
      idx.foldl
          (fun calls i =>
            if rateThreshold < py.getD i 0 ∧ py.getD (i + 1) 0 ≤ rateThreshold then
              calls ++ [(px.getD (i + 1) 0, (0 : Int))]
            else if py.getD i 0 ≤ rateThreshold ∧ rateThreshold < py.getD (i + 1) 0 then
              calls ++ [(px.getD (i + 1) 0, (1 : Int))]
            else calls)
          acc
        = acc ++ idx.filterMap (stepEventAt px py) := by
    intro idx
    induction idx with
    | nil => simp
    | cons i rest ih =>
      intro acc
      rw [List.foldl_cons, ih, List.filterMap_cons]
      unfold stepEventAt
      split
      · simp
      · split <;> simp
  unfold stepEventLines
  split
  · rw [hfold]
    simp
  · rfl

/-- The widget is well formed as constructed. -/
theorem wellFormed_initial : ChartWidget.initial.WellFormed := by
  unfold ChartWidget.WellFormed
  exact ⟨fun _ => rfl, fun h => by cases h⟩

/-- The method `setChartMode` keeps or makes the widget well formed, in the mode
asked for. -/
theorem wellFormed_setChartMode (w : ChartWidget) (mode : ChartMode) (hw : w.WellFormed) :
    (w.setChartMode mode).WellFormed ∧ (w.setChartMode mode).m_chartMode = mode := by
  refine ⟨?_, ?_⟩
  · unfold ChartWidget.setChartMode
    split
    · exact hw
    · unfold ChartWidget.WellFormed
      cases mode
      · refine ⟨fun _ => rfl, fun h => ?_⟩
        simp at h
      · refine ⟨fun h => ?_, fun _ => ⟨rfl, rfl⟩⟩
        simp at h
  · unfold ChartWidget.setChartMode
    split
    · assumption
    · cases mode <;> rfl

/-- C18: on a well-formed widget, `addEventLine(x, type)` in stacked mode appends
exactly two lines to `m_eventLines`, the first bound to the top rect and the
second to the bottom rect, both at abscissa `x` from the bottom to the top of
their rect, two different items each recorded as the sibling of the other; in
single mode it appends exactly one line; and `clearEventLines` leaves
`m_eventLines` empty. -/
theorem addEventLine_spans_both_rects (w : ChartWidget) (x : ℚ) (type : Int)
    (hw : w.WellFormed) :
    (w.m_chartMode = ChartMode.Mode_Stacked →
      ∃ lineTop lineBottom : QCPItemLine,
        (w.addEventLine x type).m_eventLines = w.m_eventLines ++ [lineTop, lineBottom] ∧
        lineTop.axisRect = RectRole.top ∧ lineBottom.axisRect = RectRole.bottom ∧
        lineTop.startCoords = (x, 1) ∧ lineTop.endCoords = (x, 0) ∧
        lineBottom.startCoords = (x, 1) ∧ lineBottom.endCoords = (x, 0) ∧
        lineTop.id ≠ lineBottom.id ∧
        lineTop.sibling = some lineBottom.id ∧ lineBottom.sibling = some lineTop.id) ∧
    (w.m_chartMode = ChartMode.Mode_Single →
      ∃ line : QCPItemLine,
        (w.addEventLine x type).m_eventLines = w.m_eventLines ++ [line] ∧
        line.axisRect = RectRole.single ∧
        line.startCoords = (x, 1) ∧ line.endCoords = (x, 0)) ∧
    (w.addEventLine x type).WellFormed ∧
    (w.addEventLine x type).clearEventLines.m_eventLines = [] ∧
    w.clearEventLines.m_eventLines = [] := by
  have hw2 := hw
  unfold ChartWidget.WellFormed at hw2
  obtain ⟨hsingle, hstacked⟩ := hw2
  refine ⟨?_, ?_, ?_, rfl, rfl⟩
  · intro hmode
    obtain ⟨ht, hb⟩ := hstacked hmode
    obtain ⟨rt, hrt⟩ := Option.isSome_iff_exists.1 ht
    obtain ⟨rb, hrb⟩ := Option.isSome_iff_exists.1 hb
    refine ⟨{ id := w.itemsCreated, axisRect := RectRole.top, startCoords := (x, 1)
              endCoords := (x, 0)
              color := if type = 0 then PenColor.red else PenColor.green
              sibling := some (w.itemsCreated + 1) },
            { id := w.itemsCreated + 1, axisRect := RectRole.bottom, startCoords := (x, 1)
              endCoords := (x, 0)
              color := if type = 0 then PenColor.red else PenColor.green
              sibling := some w.itemsCreated }, ?_, rfl, rfl, rfl, rfl, rfl, rfl, ?_, rfl, rfl⟩
    · simp only [ChartWidget.addEventLine, hmode, if_true, hrt, hrb, createLine]
    · simp
  · intro hmode
    obtain ⟨r, hr⟩ := Option.isSome_iff_exists.1 (hsingle hmode)
    refine ⟨{ id := w.itemsCreated, axisRect := RectRole.single, startCoords := (x, 1)
              endCoords := (x, 0)
              color := if type = 0 then PenColor.red else PenColor.green
              sibling := none }, ?_, rfl, rfl, rfl⟩
    simp only [ChartWidget.addEventLine, hmode, hr, createLine]
    simp
  · have hfields : (w.addEventLine x type).m_chartMode = w.m_chartMode ∧
        (w.addEventLine x type).axisRect = w.axisRect ∧
        (w.addEventLine x type).m_topRect = w.m_topRect ∧
        (w.addEventLine x type).m_bottomRect = w.m_bottomRect := by
      unfold ChartWidget.addEventLine
      simp only
      split
      · split
        · split <;> exact ⟨rfl, rfl, rfl, rfl⟩
        · split <;> exact ⟨rfl, rfl, rfl, rfl⟩
      · split <;> exact ⟨rfl, rfl, rfl, rfl⟩
    obtain ⟨h1, h2, h3, h4⟩ := hfields
    unfold ChartWidget.WellFormed
    rw [h1, h2, h3, h4]
    exact ⟨hsingle, hstacked⟩

/-- C18 at concrete inputs: the widget as constructed, in single mode, and after a
switch to stacked mode. -/
theorem addEventLine_spans_both_rects_witness :
    ((ChartWidget.initial.setChartMode ChartMode.Mode_Stacked).addEventLine 3 0).m_eventLines =
        [{ id := 0, axisRect := RectRole.top, startCoords := (3, 1), endCoords := (3, 0)
           color := PenColor.red, sibling := some 1 },
          { id := 1, axisRect := RectRole.bottom, startCoords := (3, 1), endCoords := (3, 0)
            color := PenColor.red, sibling := some 0 }] ∧
      (ChartWidget.initial.addEventLine 3 1).WellFormed :=
  ⟨by decide!,
    (addEventLine_spans_both_rects ChartWidget.initial 3 1
      wellFormed_initial).2.2.1⟩

/-! ## Properties of the plotting widget -/

/-- C15 fails as stated: with the curve `A` stored and no curve on display, a chart
title changed to `A` differs from the (empty) displayed name and is a key of
`m_curves`, yet the handler returns at its first guard and the chart title stays
`A` instead of being set back; and a chart title changed to the unused name `Z`
moves no curve to the key `Z` and does not become the name on display. -/
theorem title_change_when_nothing_displayed :
    (['A'] : List Char) ≠ nothingDisplayed.m_currentDisplayedCurve ∧
      (['A'] : List Char) ∈ nothingDisplayed.m_curves ∧
      (onChartTitleChanged ['A'] nothingDisplayed).customPlot.title = ['A'] ∧
      (onChartTitleChanged ['A'] nothingDisplayed).customPlot.title
        ≠ nothingDisplayed.m_currentDisplayedCurve ∧
      (['Z'] : List Char) ∉ nothingDisplayed.m_curves ∧
      (onChartTitleChanged ['Z'] nothingDisplayed).m_curves.lookup ['Z'] = none ∧
      (onChartTitleChanged ['Z'] nothingDisplayed).m_currentDisplayedCurve ≠ ['Z'] := by
  refine ⟨?_, ?_, ?_, ?_, ?_, ?_, ?_⟩ <;> decide

/-- Moving the entry of a stored key to a key not yet used keeps the number of
entries. -/
theorem keys_length_move {V : Type} (m : QMap V) (old new : List Char) (v : V)
    (hold : old ∈ m) (hnew : new ∉ m) :
    ((m.erase old).insert new v).keys.length = m.keys.length := by
  have hnew2 : new ∉ (m.erase old).keys := by
    rw [← AList.mem_keys, AList.mem_erase]
    exact fun h => hnew h.2
  have h1 := @List.erase_of_not_mem (List Char) instBEqOfDecidableEq _ new
    (m.erase old).keys hnew2
  have h2 := @List.length_erase_of_mem (List Char) instBEqOfDecidableEq _ old m.keys
    (AList.mem_keys.1 hold)
  have h3 : 0 < m.keys.length := List.length_pos_of_mem (AList.mem_keys.1 hold)
  rw [AList.keys_insert, List.length_cons, h1, AList.keys_erase, h2]
  omega

/-- C15, amended: when no curve is on display, or the new title is the name on
display, `onChartTitleChanged` changes nothing. When a curve is on display and the
new title differs from its name: if the new title is a key of `m_curves`, then
`m_curves`, `m_viewStates` and `m_currentDisplayedCurve` are left unchanged and the
chart title is set back to the name on display; otherwise the displayed curve,
stored under its name, is moved to the new key with its name field set to the new
title, its view state (if it has one) is moved with it, every other curve stays,
the new title becomes the name on display and the number of stored curves is
unchanged. -/
theorem onChartTitleChanged_spec (newTitle : List Char) (w : WT_PlottingWidget) :
    (w.m_currentDisplayedCurve = [] ∨ newTitle = w.m_currentDisplayedCurve →
      onChartTitleChanged newTitle w = w) ∧
    (w.m_currentDisplayedCurve ≠ [] → newTitle ≠ w.m_currentDisplayedCurve →
      newTitle ∈ w.m_curves →
      onChartTitleChanged newTitle w =
        { w with customPlot := w.customPlot.setTitle w.m_currentDisplayedCurve }) ∧
    (w.m_currentDisplayedCurve ≠ [] → newTitle ≠ w.m_currentDisplayedCurve →
      newTitle ∉ w.m_curves →
      ∀ info, w.m_curves.lookup w.m_currentDisplayedCurve = some info →
        (onChartTitleChanged newTitle w).m_curves.lookup newTitle
            = some { info with name := newTitle } ∧
        (onChartTitleChanged newTitle w).m_curves.lookup w.m_currentDisplayedCurve = none ∧
        (∀ key, key ≠ newTitle → key ≠ w.m_currentDisplayedCurve →
          (onChartTitleChanged newTitle w).m_curves.lookup key = w.m_curves.lookup key) ∧
        (onChartTitleChanged newTitle w).m_curves.keys.length = w.m_curves.keys.length ∧
        (onChartTitleChanged newTitle w).m_currentDisplayedCurve = newTitle ∧
        (onChartTitleChanged newTitle w).customPlot = w.customPlot ∧
        (∀ state, w.m_viewStates.lookup w.m_currentDisplayedCurve = some state →
          (onChartTitleChanged newTitle w).m_viewStates.lookup newTitle = some state ∧
          (onChartTitleChanged newTitle w).m_viewStates.lookup w.m_currentDisplayedCurve
            = none) ∧
        (w.m_viewStates.lookup w.m_currentDisplayedCurve = none →
          (onChartTitleChanged newTitle w).m_viewStates = w.m_viewStates)) := by
  refine ⟨?_, ?_, ?_⟩
  · rintro (h | h)
    · simp [onChartTitleChanged, h]
    · unfold onChartTitleChanged
      split
      · rfl
      · rfl
  · intro h1 h2 h3
    have he : w.m_currentDisplayedCurve.isEmpty = false := by
      cases hc : w.m_currentDisplayedCurve with
      | nil => exact absurd hc h1
      | cons c cs => rfl
    simp [onChartTitleChanged, he, h2, h3]
  · intro h1 h2 h3 info hinfo
    have he : w.m_currentDisplayedCurve.isEmpty = false := by
      cases hc : w.m_currentDisplayedCurve with
      | nil => exact absurd hc h1
      | cons c cs => rfl
    have hold : w.m_currentDisplayedCurve ∈ w.m_curves := by
      rw [← AList.lookup_isSome, hinfo]
      rfl
    have hres : onChartTitleChanged newTitle w =
        { w with
          m_curves := (w.m_curves.erase w.m_currentDisplayedCurve).insert newTitle
            { info with name := newTitle }
          m_viewStates :=
            match w.m_viewStates.lookup w.m_currentDisplayedCurve with
            | some state =>
              (w.m_viewStates.erase w.m_currentDisplayedCurve).insert newTitle state
            | none => w.m_viewStates
          m_currentDisplayedCurve := newTitle } := by
      simp [onChartTitleChanged, he, h2, h3, hinfo]
    rw [hres]
    refine ⟨?_, ?_, ?_, ?_, rfl, rfl, ?_, ?_⟩
    · simp
    · simp only
      rw [AList.lookup_insert_ne (Ne.symm h2), AList.lookup_erase]
    · intro key hk1 hk2
      simp only
      rw [AList.lookup_insert_ne hk1, AList.lookup_erase_ne hk2]
    · exact keys_length_move _ _ _ _ hold h3
    · intro state hstate
      simp only [hstate]
      refine ⟨by simp, ?_⟩
      rw [AList.lookup_insert_ne (Ne.symm h2), AList.lookup_erase]
    · intro hnone
      simp only [hnone]

/-- A view state captured from a chart is marked as saved. -/
theorem captureViewState_saved (c : ChartWidget) : (captureViewState c).saved = true := by
  unfold captureViewState
  simp only
  split
  · split <;> split <;> rfl
  · split <;> rfl

/-- Well-formedness only depends on the mode and on which rects exist. -/
theorem wellFormed_of_sameShape (c d : ChartWidget) (h : c.SameShape d) (hd : d.WellFormed) :
    c.WellFormed := by
  obtain ⟨h1, h2, h3, h4⟩ := h
  unfold ChartWidget.WellFormed at hd ⊢
  rw [h1, h2, h3, h4]
  exact hd

/-- Adding an event line changes neither the mode nor the rects. -/
theorem addEventLine_rects (w : ChartWidget) (x : ℚ) (type : Int) :
    (w.addEventLine x type).m_chartMode = w.m_chartMode ∧
      (w.addEventLine x type).axisRect = w.axisRect ∧
      (w.addEventLine x type).m_topRect = w.m_topRect ∧
      (w.addEventLine x type).m_bottomRect = w.m_bottomRect := by
  unfold ChartWidget.addEventLine
  simp only
  split
  · split
    · split <;> exact ⟨rfl, rfl, rfl, rfl⟩
    · split <;> exact ⟨rfl, rfl, rfl, rfl⟩
  · split <;> exact ⟨rfl, rfl, rfl, rfl⟩

/-- Adding event lines one after the other changes neither the mode nor the
rects. -/
theorem addEventLines_rects (calls : List (ℚ × Int)) (w : ChartWidget) :
    (calls.foldl (fun w call => w.addEventLine call.1 call.2) w).m_chartMode = w.m_chartMode ∧
      (calls.foldl (fun w call => w.addEventLine call.1 call.2) w).axisRect = w.axisRect ∧
      (calls.foldl (fun w call => w.addEventLine call.1 call.2) w).m_topRect = w.m_topRect ∧
      (calls.foldl (fun w call => w.addEventLine call.1 call.2) w).m_bottomRect
        = w.m_bottomRect := by
  induction calls generalizing w with
  | nil => exact ⟨rfl, rfl, rfl, rfl⟩
  | cons call rest ih =>
    obtain ⟨h1, h2, h3, h4⟩ := ih (w.addEventLine call.1 call.2)
    obtain ⟨g1, g2, g3, g4⟩ := addEventLine_rects w call.1 call.2
    simp only [List.foldl_cons]
    exact ⟨h1.trans g1, h2.trans g2, h3.trans g3, h4.trans g4⟩

/-- Drawing a stacked plot changes neither the mode nor which rects exist. -/
theorem drawStackedPlot_sameShape (auto : AutoScale) (info : CurveInfo) (c : ChartWidget) :
    (drawStackedPlot auto info c).SameShape c := by
  unfold drawStackedPlot
  simp only
  split
  · split
    · obtain ⟨h1, h2, h3, h4⟩ := addEventLines_rects
        (stepEventLines (stepPoints info.x2Data info.y2Data).1
          (stepPoints info.x2Data info.y2Data).2) c.clearEventLines
      unfold ChartWidget.SameShape
      simp only [ChartWidget.setBottomYRange, ChartWidget.setBottomXRange,
        ChartWidget.setTopYRange, ChartWidget.setTopXRange, Option.isSome_map', h1, h2, h3, h4,
        Option.map_map]
      simp [ChartWidget.clearEventLines]
    · unfold ChartWidget.SameShape
      simp [ChartWidget.setBottomYRange, ChartWidget.setBottomXRange,
        ChartWidget.setTopYRange, ChartWidget.setTopXRange, ChartWidget.clearEventLines]
  · exact ⟨rfl, rfl, rfl, rfl⟩

/-- Displaying a curve leaves a well-formed chart in the mode of the curve. -/
theorem displayCurve_wellFormed (auto : AutoScale) (info : CurveInfo) (c : ChartWidget)
    (hc : c.WellFormed) :
    (displayCurve auto info c).WellFormed ∧
      (displayCurve auto info c).m_chartMode = chartModeOf info := by
  have h0 : ((c.clearGraphs).setTitle info.name).WellFormed :=
    wellFormed_of_sameShape _ c ⟨rfl, rfl, rfl, rfl⟩ hc
  unfold displayCurve chartModeOf
  simp only
  split
  · obtain ⟨hw, hm⟩ := wellFormed_setChartMode _ ChartMode.Mode_Stacked h0
    have hs := drawStackedPlot_sameShape auto info
      (((c.clearGraphs).setTitle info.name).setChartMode ChartMode.Mode_Stacked)
    exact ⟨wellFormed_of_sameShape _ _ hs hw, hs.1.trans hm⟩
  · obtain ⟨hw, hm⟩ := wellFormed_setChartMode _ ChartMode.Mode_Single h0
    refine ⟨wellFormed_of_sameShape _ _ ?_ hw, hm⟩
    unfold ChartWidget.SameShape
    simp [ChartWidget.setXRange, ChartWidget.setYRange]

/-- Applying a view state changes neither the mode nor which rects exist. -/
theorem applyViewState_sameShape (state : ViewState) (c : ChartWidget) :
    (applyViewState state c).SameShape c := by
  unfold applyViewState ChartWidget.SameShape
  simp only
  split
  · split <;> split <;>
      simp [ChartWidget.setBottomYRange, ChartWidget.setBottomXRange,
        ChartWidget.setTopYRange, ChartWidget.setTopXRange]
  · simp [ChartWidget.setXRange, ChartWidget.setYRange]

/-- Restoring, on a well-formed chart in the same mode, the view captured from a
well-formed chart with coupled time axes gives back the rects of that chart. -/
theorem applyViewState_capture (c d : ChartWidget) (hc : c.WellFormed) (hl : c.AxesLinked)
    (hd : d.WellFormed) (hmode : d.m_chartMode = c.m_chartMode) :
    (applyViewState (captureViewState c) d).m_chartMode = c.m_chartMode ∧
      (c.m_chartMode = ChartMode.Mode_Single →
        (applyViewState (captureViewState c) d).axisRect = c.axisRect) ∧
      (c.m_chartMode = ChartMode.Mode_Stacked →
        (applyViewState (captureViewState c) d).m_topRect = c.m_topRect ∧
          (applyViewState (captureViewState c) d).m_bottomRect = c.m_bottomRect) ∧
      (applyViewState (captureViewState c) d).WellFormed ∧
      (applyViewState (captureViewState c) d).AxesLinked := by
  have hshape := applyViewState_sameShape (captureViewState c) d
  have hwf := wellFormed_of_sameShape _ _ hshape hd
  unfold ChartWidget.WellFormed at hc hd
  cases hcm : c.m_chartMode with
  | Mode_Single =>
    rw [hcm] at hmode
    obtain ⟨rc, hrc⟩ := Option.isSome_iff_exists.1 (hc.1 hcm)
    obtain ⟨rd, hrd⟩ := Option.isSome_iff_exists.1 (hd.1 hmode)
    have hres : (applyViewState (captureViewState c) d) =
        { d with axisRect := some rc } := by
      simp [applyViewState, captureViewState, hcm, hmode, hrc, hrd, ChartWidget.setXRange,
        ChartWidget.setYRange]
    refine ⟨hshape.1.trans hmode, fun _ => ?_, fun h => by simp at h, hwf, ?_⟩
    · rw [hres, hrc]
    · intro h
      rw [hshape.1, hmode] at h
      simp at h
  | Mode_Stacked =>
    rw [hcm] at hmode
    obtain ⟨htc, hbc⟩ := hc.2 hcm
    obtain ⟨htd, hbd⟩ := hd.2 hmode
    obtain ⟨tc, htc⟩ := Option.isSome_iff_exists.1 htc
    obtain ⟨bc, hbc⟩ := Option.isSome_iff_exists.1 hbc
    obtain ⟨td, htd⟩ := Option.isSome_iff_exists.1 htd
    obtain ⟨bd, hbd⟩ := Option.isSome_iff_exists.1 hbd
    have hx : tc.xRange = bc.xRange := hl hcm tc bc htc hbc
    obtain ⟨tcx, tcy⟩ := tc
    obtain ⟨bcx, bcy⟩ := bc
    simp only at hx
    subst hx
    have hres : (applyViewState (captureViewState c) d) =
        { d with m_topRect := some { xRange := tcx, yRange := tcy }
                 m_bottomRect := some { xRange := tcx, yRange := bcy } } := by
      simp [applyViewState, captureViewState, hcm, hmode, htc, hbc, htd, hbd,
        ChartWidget.getTopRect, ChartWidget.getBottomRect, ChartWidget.setTopXRange,
        ChartWidget.setTopYRange, ChartWidget.setBottomXRange, ChartWidget.setBottomYRange]
    refine ⟨hshape.1.trans hmode, fun h => by simp at h, fun _ => ?_, hwf, ?_⟩
    · rw [hres, htc, hbc]
      exact ⟨rfl, rfl⟩
    · intro _ t b ht hb
      rw [hres] at ht hb
      simp only [Option.some.injEq] at ht hb
      rw [← ht, ← hb]

/-- Double-clicking a stored curve whose view was captured from a chart `view`
(well formed, in the mode of the curve, time axes coupled), either because the
curve is on display on that chart or because it is not on display and its saved
view state is the one captured from that chart, puts the curve on display with
the rects of `view`. -/
theorem doubleClick_restores (auto : AutoScale) (name : List Char) (info : CurveInfo)
    (w : WT_PlottingWidget) (view : ChartWidget)
    (hinfo : w.m_curves.lookup name = some info) (hw : w.customPlot.WellFormed)
    (hne : name ≠ []) (hvm : view.m_chartMode = chartModeOf info) (hvw : view.WellFormed)
    (hvl : view.AxesLinked)
    (hview : (w.m_currentDisplayedCurve = name ∧ view = w.customPlot) ∨
      (w.m_currentDisplayedCurve ≠ name ∧
        w.m_viewStates.lookup name = some (captureViewState view))) :
    (on_listWidget_Curves_itemDoubleClicked auto name w).Displays name info ∧
      (view.m_chartMode = ChartMode.Mode_Single →
        (on_listWidget_Curves_itemDoubleClicked auto name w).customPlot.axisRect
          = view.axisRect) ∧
      (view.m_chartMode = ChartMode.Mode_Stacked →
        (on_listWidget_Curves_itemDoubleClicked auto name w).customPlot.m_topRect
            = view.m_topRect ∧
          (on_listWidget_Curves_itemDoubleClicked auto name w).customPlot.m_bottomRect
            = view.m_bottomRect) := by
  have hsave : ∃ w1 : WT_PlottingWidget,
      (if !w.m_currentDisplayedCurve.isEmpty then saveCurveViewState w.m_currentDisplayedCurve w
        else w) = w1 ∧
      w1.m_curves = w.m_curves ∧ w1.customPlot = w.customPlot ∧
      w1.m_viewStates.lookup name = some (captureViewState view) := by
    refine ⟨_, rfl, ?_, ?_, ?_⟩
    · split
      · unfold saveCurveViewState
        split <;> rfl
      · rfl
    · split
      · unfold saveCurveViewState
        split <;> rfl
      · rfl
    · rcases hview with ⟨hcur, hv⟩ | ⟨hcur, hv⟩
      · have he : w.m_currentDisplayedCurve.isEmpty = false := by
          rw [hcur]
          cases name with
          | nil => exact absurd rfl hne
          | cons c cs => rfl
        simp only [he, Bool.not_false, if_true, saveCurveViewState, Bool.false_eq_true, if_false]
        rw [hcur, hv]
        exact AList.lookup_insert _
      · split
        · unfold saveCurveViewState
          split
          · exact hv
          · simp only
            rw [AList.lookup_insert_ne (Ne.symm hcur)]
            exact hv
        · exact hv
  obtain ⟨w1, hw1, hcurves, hplot, hlookup⟩ := hsave
  have hres : on_listWidget_Curves_itemDoubleClicked auto name w =
      { w1 with
        m_currentDisplayedCurve := name
        customPlot := applyViewState (captureViewState view)
          (displayCurve auto info w.customPlot) } := by
    unfold on_listWidget_Curves_itemDoubleClicked
    rw [hinfo]
    simp only [hw1]
    unfold restoreCurveViewState
    simp only [hlookup, captureViewState_saved, Bool.not_true, Bool.false_eq_true, if_false,
      hplot]
  obtain ⟨hdw, hdm⟩ := displayCurve_wellFormed auto info w.customPlot hw
  obtain ⟨k1, k2, k3, k4, k5⟩ := applyViewState_capture view
    (displayCurve auto info w.customPlot) hvw hvl hdw (hdm.trans hvm.symm)
  rw [hres]
  refine ⟨⟨?_, rfl, k1.trans hvm, k4, k5⟩, k2, k3⟩
  show w1.m_curves.lookup name = some info
  rw [hcurves]
  exact hinfo

/-- Double-clicking another stored curve keeps the curves, and keeps for the curve
that was on display the view captured from its chart. -/
theorem doubleClick_other (auto : AutoScale) (shown other : List Char)
    (infoShown infoOther : CurveInfo) (w : WT_PlottingWidget)
    (hshown : w.Displays shown infoShown) (hnonempty : shown ≠ [])
    (hother : w.m_curves.lookup other = some infoOther) (hne : other ≠ shown) :
    (on_listWidget_Curves_itemDoubleClicked auto other w).m_curves = w.m_curves ∧
      (on_listWidget_Curves_itemDoubleClicked auto other w).m_currentDisplayedCurve = other ∧
      (on_listWidget_Curves_itemDoubleClicked auto other w).m_viewStates.lookup shown
        = some (captureViewState w.customPlot) ∧
      (on_listWidget_Curves_itemDoubleClicked auto other w).customPlot.WellFormed := by
  obtain ⟨_, hcur, _, hwf, _⟩ := hshown
  have he : w.m_currentDisplayedCurve.isEmpty = false := by
    rw [hcur]
    cases shown with
    | nil => exact absurd rfl hnonempty
    | cons c cs => rfl
  obtain ⟨hdw, _⟩ := displayCurve_wellFormed auto infoOther w.customPlot hwf
  unfold on_listWidget_Curves_itemDoubleClicked
  rw [hother]
  simp only [he, Bool.not_false, if_true, saveCurveViewState, Bool.false_eq_true, if_false]
  unfold restoreCurveViewState
  simp only
  split
  · refine ⟨rfl, rfl, ?_, hdw⟩
    simp only
    rw [hcur]
    exact AList.lookup_insert _
  · split
    · refine ⟨rfl, rfl, ?_, hdw⟩
      simp only
      rw [hcur]
      exact AList.lookup_insert _
    · refine ⟨rfl, rfl, ?_, ?_⟩
      · simp only
        rw [hcur]
        exact AList.lookup_insert _
      · exact wellFormed_of_sameShape _ _ (applyViewState_sameShape _ _) hdw

/-- C16: switching curves saves and restores the view of a curve with a name. When
the stored curve `A`, whose name is not empty, is on display and `B` is a stored
curve, double-clicking `B` and afterwards `A` again leaves the chart in the mode
of `A` with its axis rects at the ranges they had (the rect of `xAxis` and `yAxis`
in single mode, the top and the bottom rect in stacked mode), whatever ranges the
rescaling of `displayCurve` produced in between; and `A` is on display again. -/
theorem switching_curves_restores_view (auto : AutoScale) (A B : List Char)
    (infoA infoB : CurveInfo) (w : WT_PlottingWidget)
    (hA : w.Displays A infoA) (hne : A ≠ []) (hB : w.m_curves.lookup B = some infoB) :
    (on_listWidget_Curves_itemDoubleClicked auto A
        (on_listWidget_Curves_itemDoubleClicked auto B w)).customPlot.m_chartMode
      = w.customPlot.m_chartMode ∧
    (w.customPlot.m_chartMode = ChartMode.Mode_Single →
      (on_listWidget_Curves_itemDoubleClicked auto A
          (on_listWidget_Curves_itemDoubleClicked auto B w)).customPlot.axisRect
        = w.customPlot.axisRect) ∧
    (w.customPlot.m_chartMode = ChartMode.Mode_Stacked →
      (on_listWidget_Curves_itemDoubleClicked auto A
          (on_listWidget_Curves_itemDoubleClicked auto B w)).customPlot.m_topRect
        = w.customPlot.m_topRect ∧
      (on_listWidget_Curves_itemDoubleClicked auto A
          (on_listWidget_Curves_itemDoubleClicked auto B w)).customPlot.m_bottomRect
        = w.customPlot.m_bottomRect) ∧
    (on_listWidget_Curves_itemDoubleClicked auto A
      (on_listWidget_Curves_itemDoubleClicked auto B w)).Displays A infoA := by
  have hA0 := hA
  obtain ⟨hinfo, hcur, hmode, hwf, hlink⟩ := hA
  by_cases hBA : B = A
  · subst hBA
    obtain ⟨d1, s1, t1⟩ := doubleClick_restores auto B infoA w w.customPlot hinfo hwf hne hmode hwf
      hlink (Or.inl ⟨hcur, rfl⟩)
    obtain ⟨dinfo, dcur, dmode, dwf, dlink⟩ := d1
    obtain ⟨d2, s2, t2⟩ := doubleClick_restores auto B infoA
      (on_listWidget_Curves_itemDoubleClicked auto B w)
      (on_listWidget_Curves_itemDoubleClicked auto B w).customPlot dinfo dwf hne dmode dwf
      dlink (Or.inl ⟨dcur, rfl⟩)
    refine ⟨d2.2.2.1.trans hmode.symm, ?_, ?_, d2⟩
    · intro hs
      rw [s2 (by rw [dmode, ← hmode]; exact hs)]
      exact s1 hs
    · intro hs
      obtain ⟨p1, p2⟩ := t2 (by rw [dmode, ← hmode]; exact hs)
      obtain ⟨q1, q2⟩ := t1 hs
      exact ⟨p1.trans q1, p2.trans q2⟩
  · obtain ⟨n1, n2, n3, n4⟩ := doubleClick_other auto A B infoA infoB w hA0 hne hB hBA
    obtain ⟨d2, s2, t2⟩ := doubleClick_restores auto A infoA
      (on_listWidget_Curves_itemDoubleClicked auto B w) w.customPlot
      (by rw [n1]; exact hinfo) n4 hne hmode hwf hlink
      (Or.inr ⟨by rw [n2]; exact hBA, n3⟩)
    exact ⟨d2.2.2.1.trans hmode.symm, s2, t2, d2⟩

/-- C16 at a concrete input: the curve `A` on display in single mode, zoomed to the
ranges `(1, 2)` and `(3, 4)`, and the stacked curve `B`. -/
theorem switching_curves_restores_view_witness :
    zoomedOnA.Displays ['A'] curveA ∧ (['A'] : List Char) ≠ [] ∧
      zoomedOnA.m_curves.lookup ['B'] = some curveB ∧
      (on_listWidget_Curves_itemDoubleClicked sampleAutoScale ['A']
          (on_listWidget_Curves_itemDoubleClicked sampleAutoScale ['B']
            zoomedOnA)).customPlot.axisRect
        = some { xRange := { lower := 1, upper := 2 }, yRange := { lower := 3, upper := 4 } } :=
  have h : zoomedOnA.Displays ['A'] curveA := by
    refine ⟨by decide, rfl, rfl, ?_, ?_⟩
    · unfold ChartWidget.WellFormed
      exact ⟨fun _ => rfl, fun h => by simp [zoomedOnA, ChartWidget.initial] at h⟩
    · intro h
      simp [zoomedOnA, ChartWidget.initial] at h
  ⟨h, by decide, by decide,
    (switching_curves_restores_view sampleAutoScale ['A'] ['B'] curveA curveB zoomedOnA h
      (by decide) (by decide)).2.1 rfl⟩

/-- C16 fails as stated for a curve stored under the empty name. On
`zoomedOnUnnamed` the curve without a name is stored and on display, zoomed to the
ranges `(1, 2)` and `(3, 4)`, and the curve `B` is stored; `saveCurveViewState`
is not called for the empty name, so after double-clicking `B` and then the first
curve again the axes are at the automatic ranges `(0, 10)`, not where they were. -/
theorem unnamed_curve_view_not_restored :
    zoomedOnUnnamed.Displays [] { curveA with name := [] } ∧
      zoomedOnUnnamed.m_curves.lookup ['B'] = some curveB ∧
      zoomedOnUnnamed.customPlot.m_chartMode = ChartMode.Mode_Single ∧
      zoomedOnUnnamed.customPlot.axisRect
        = some { xRange := { lower := 1, upper := 2 }, yRange := { lower := 3, upper := 4 } } ∧
      (on_listWidget_Curves_itemDoubleClicked sampleAutoScale ['B']
          zoomedOnUnnamed).m_viewStates.lookup [] = none ∧
      (on_listWidget_Curves_itemDoubleClicked sampleAutoScale []
          (on_listWidget_Curves_itemDoubleClicked sampleAutoScale ['B']
            zoomedOnUnnamed)).customPlot.m_chartMode = ChartMode.Mode_Single ∧
      (on_listWidget_Curves_itemDoubleClicked sampleAutoScale []
          (on_listWidget_Curves_itemDoubleClicked sampleAutoScale ['B']
            zoomedOnUnnamed)).customPlot.axisRect
        = some { xRange := { lower := 0, upper := 10 }, yRange := { lower := 0, upper := 10 } } ∧
      (on_listWidget_Curves_itemDoubleClicked sampleAutoScale []
          (on_listWidget_Curves_itemDoubleClicked sampleAutoScale ['B']
            zoomedOnUnnamed)).customPlot.axisRect
        ≠ zoomedOnUnnamed.customPlot.axisRect := by
  have hplot : zoomedOnUnnamed.customPlot = zoomedOnA.customPlot.setTitle [] := by decide!
  have hcur : zoomedOnUnnamed.m_currentDisplayedCurve = [] := by decide!
  refine ⟨⟨?_, hcur, ?_, ?_, ?_⟩, ?_, ?_, ?_, ?_, ?_, ?_, ?_⟩
  · decide!
  · rw [hplot]
    rfl
  · rw [hplot]
    unfold ChartWidget.WellFormed
    exact ⟨fun _ => rfl,
      fun h => by simp [zoomedOnA, ChartWidget.initial, ChartWidget.setTitle] at h⟩
  · rw [hplot]
    intro h
    simp [zoomedOnA, ChartWidget.initial, ChartWidget.setTitle] at h
  · decide!
  · decide!
  · decide!
  · decide!
  · decide!
  · decide!
  · decide!

/-- After the ranges of the bottom rect are set, the two time axes agree. -/
theorem linked_after_setBottom (c : ChartWidget) (rx ry : QCPRange) :
    ((c.setBottomXRange rx).setBottomYRange ry).AxesLinked := by
  intro _ t b ht hb
  simp only [ChartWidget.setBottomYRange, ChartWidget.setBottomXRange, Option.map_map] at ht hb
  cases h1 : c.m_topRect with
  | none => simp [h1] at ht
  | some t0 =>
    cases h2 : c.m_bottomRect with
    | none => simp [h2] at hb
    | some b0 =>
      simp only [h1, h2, Option.map_some', Option.some.injEq, Function.comp] at ht hb
      rw [← ht, ← hb]

/-- Applying a view state to a well-formed chart leaves its time axes coupled. -/
theorem applyViewState_linked (state : ViewState) (d : ChartWidget) (hd : d.WellFormed) :
    (applyViewState state d).AxesLinked := by
  cases hm : d.m_chartMode with
  | Mode_Single =>
    intro h
    rw [(applyViewState_sameShape state d).1, hm] at h
    simp at h
  | Mode_Stacked =>
    unfold ChartWidget.WellFormed at hd
    obtain ⟨ht, hb⟩ := hd.2 hm
    obtain ⟨t0, ht0⟩ := Option.isSome_iff_exists.1 ht
    obtain ⟨b0, hb0⟩ := Option.isSome_iff_exists.1 hb
    have hres : applyViewState state d =
        (((d.setTopXRange state.topXRange).setTopYRange state.topYRange).setBottomXRange
          state.bottomXRange).setBottomYRange state.bottomYRange := by
      simp [applyViewState, hm, ChartWidget.getTopRect, ChartWidget.getBottomRect, ht0, hb0,
        ChartWidget.setTopXRange, ChartWidget.setTopYRange]
    rw [hres]
    exact linked_after_setBottom _ _ _

/-- Displaying a curve on a well-formed chart leaves the time axes coupled. -/
theorem displayCurve_linked (auto : AutoScale) (info : CurveInfo) (c : ChartWidget)
    (hc : c.WellFormed) : (displayCurve auto info c).AxesLinked := by
  obtain ⟨_, hmode⟩ := displayCurve_wellFormed auto info c hc
  by_cases htype : info.type = 1
  · have h0 : ((c.clearGraphs).setTitle info.name).WellFormed :=
      wellFormed_of_sameShape _ c ⟨rfl, rfl, rfl, rfl⟩ hc
    obtain ⟨hw, hm⟩ := wellFormed_setChartMode _ ChartMode.Mode_Stacked h0
    unfold ChartWidget.WellFormed at hw
    obtain ⟨ht, hb⟩ := hw.2 hm
    obtain ⟨t0, ht0⟩ := Option.isSome_iff_exists.1 ht
    obtain ⟨b0, hb0⟩ := Option.isSome_iff_exists.1 hb
    unfold displayCurve
    simp only [htype, if_true]
    unfold drawStackedPlot
    simp only [ChartWidget.getTopRect, ChartWidget.getBottomRect, ChartWidget.clearEventLines,
      hm, ht0, hb0]
    simp only [reduceCtorEq, if_false]
    exact linked_after_setBottom _ _ _
  · intro h
    rw [hmode] at h
    simp [chartModeOf, htype] at h

/-- Double-clicking a stored curve puts it on display, from every state with a
well-formed chart. -/
theorem doubleClick_displays (auto : AutoScale) (name : List Char) (info : CurveInfo)
    (w : WT_PlottingWidget) (hinfo : w.m_curves.lookup name = some info)
    (hw : w.customPlot.WellFormed) :
    (on_listWidget_Curves_itemDoubleClicked auto name w).Displays name info := by
  have hsave : ∃ w1 : WT_PlottingWidget,
      (if !w.m_currentDisplayedCurve.isEmpty then saveCurveViewState w.m_currentDisplayedCurve w
        else w) = w1 ∧
      w1.m_curves = w.m_curves ∧ w1.customPlot = w.customPlot := by
    refine ⟨_, rfl, ?_, ?_⟩
    · split
      · unfold saveCurveViewState
        split <;> rfl
      · rfl
    · split
      · unfold saveCurveViewState
        split <;> rfl
      · rfl
  obtain ⟨w1, hw1, hcurves, hplot⟩ := hsave
  obtain ⟨hdw, hdm⟩ := displayCurve_wellFormed auto info w.customPlot hw
  have hdl := displayCurve_linked auto info w.customPlot hw
  unfold on_listWidget_Curves_itemDoubleClicked
  rw [hinfo]
  simp only [hw1]
  unfold restoreCurveViewState
  simp only [hplot]
  split
  · exact ⟨hcurves ▸ hinfo, rfl, hdm, hdw, hdl⟩
  · split
    · exact ⟨hcurves ▸ hinfo, rfl, hdm, hdw, hdl⟩
    · exact ⟨hcurves ▸ hinfo, rfl, (applyViewState_sameShape _ _).1.trans hdm,
        wellFormed_of_sameShape _ _ (applyViewState_sameShape _ _) hdw,
        applyViewState_linked _ _ hdw⟩

/-! ## The page, sheet and chart definitions at work on concrete data -/

/-- The rate `8, 0, 9, 9` at the times `1, 2, 3, 4` is shut in at two and opened at
three; lists of different lengths ask for no line. -/
theorem sample_stepEventLines :
    stepEventLines [1, 2, 3, 4] [8, 0, 9, 9] = [(2, 0), (3, 1)] ∧
      stepEventLines [1, 2, 3] [8, 0] = [] := by
  constructor <;> decide!

/-- A rate equal to the threshold counts as shut in: between such a rate and a
rate of zero no line is requested, while a rate twice the threshold is open. -/
theorem sample_threshold_rate :
    stepEventLines [1, 2, 3] [rateThreshold, 0, rateThreshold] = [] ∧
      stepEventLines [1, 2, 3] [2 * rateThreshold, 0, 2 * rateThreshold]
        = [(2, 0), (3, 1)] ∧
      (1 : ℚ) / 10 ^ 9 < rateThreshold := by
  refine ⟨?_, ?_, ?_⟩ <;> decide!

/-- Times that do not increase are durations: they are accumulated from zero. -/
theorem sample_stepPoints :
    stepPoints [1, 1, 2] [5, 0, 7] = ([0, 1, 2, 4], [5, 0, 7, 7]) ∧
      stepPoints [1, 2, 3, 4] [8, 0, 9, 9] = ([1, 2, 3, 4], [8, 0, 9, 9]) := by
  constructor <;> decide!

/-- Double-clicking the stacked curve `B` while `A` is on display: the chart turns
stacked, both rects get the automatic ranges, and the two rate events give four
event lines. -/
theorem sample_doubleClick_stacked :
    (on_listWidget_Curves_itemDoubleClicked sampleAutoScale ['B']
        zoomedOnA).customPlot.m_chartMode = ChartMode.Mode_Stacked ∧
      (on_listWidget_Curves_itemDoubleClicked sampleAutoScale ['B']
        zoomedOnA).customPlot.m_topRect
        = some { xRange := { lower := 0, upper := 10 }, yRange := { lower := 0, upper := 10 } } ∧
      (on_listWidget_Curves_itemDoubleClicked sampleAutoScale ['B']
        zoomedOnA).customPlot.m_eventLines.length = 4 ∧
      (on_listWidget_Curves_itemDoubleClicked sampleAutoScale ['B']
        zoomedOnA).m_currentDisplayedCurve = ['B'] := by
  refine ⟨?_, ?_, ?_, ?_⟩ <;> decide!

/-- Renaming the displayed curve `A` to the stored name `B` is rejected and the
title reset; renaming it to the unused name `C` moves it. -/
theorem sample_rename :
    (onChartTitleChanged ['B'] displayingA).customPlot.title = ['A'] ∧
      (onChartTitleChanged ['B'] displayingA).m_currentDisplayedCurve = ['A'] ∧
      (onChartTitleChanged ['C'] displayingA).m_currentDisplayedCurve = ['C'] ∧
      (onChartTitleChanged ['C'] displayingA).m_curves.keys = [['C'], ['B']] := by
  refine ⟨?_, ?_, ?_, ?_⟩ <;> decide

/-- The sample sheet saved and loaded again: two rows, two columns, the headers,
the cell texts with the missing cell as the empty text, and the column
definitions. -/
theorem sample_sheet_roundtrip :
    (loadFromJson (saveToJson sampleSheet) sampleSheet).m_dataModel.rowCount = 2 ∧
      (loadFromJson (saveToJson sampleSheet) sampleSheet).m_dataModel.columnCount = 2 ∧
      (loadFromJson (saveToJson sampleSheet) sampleSheet).m_dataModel.item 1 0 = some ['2'] ∧
      (loadFromJson (saveToJson sampleSheet) sampleSheet).m_dataModel.item 1 1 = some [] ∧
      (loadFromJson (saveToJson sampleSheet) sampleSheet).m_dataModel.headerData 1 = ['p'] ∧
      (loadFromJson (saveToJson sampleSheet) sampleSheet).m_columnDefinitions
        = [{ name := ['t'] }, { name := ['p'] }] ∧
      (loadFromJson (saveToJson sampleSheet) sampleSheet).m_filePath
        = ['a', '.', 'c', 's', 'v'] := by
  refine ⟨?_, ?_, ?_, ?_, ?_, ?_, ?_⟩ <;> decide

/-- Loading an empty `analyses` array, a legacy object, and an array whose only
page has no `_tabName`, each onto a page with no tab, gives the one tab
`Analysis 1`. -/
theorem sample_load :
    (loadAllFittingStates (fun _ => ()) [(analysesKey, QJsonValue.array [])]
        { tabs := [], currentIndex := -1 }).tabs = [(analysisOne, ())] ∧
      (loadAllFittingStates (fun _ => ()) [(versionKey, QJsonValue.null)]
        { tabs := [], currentIndex := -1 }).tabs = [(analysisOne, ())] ∧
      (loadAllFittingStates (fun _ => ())
        [(analysesKey, QJsonValue.array [QJsonValue.object [(versionKey, QJsonValue.null)]])]
        { tabs := [], currentIndex := -1 }).tabs = [(analysisOne, ())] := by
  refine ⟨?_, ?_, ?_⟩ <;> decide

end WellTest
